import Mathlib

/-!
# DGtal: breadth-first traversal of a digital surface, and `FunctorHolder`

A verification development over a shallow embedding of

* `examples/topology/volBreadthFirstTraversal.cpp` (`usage`, `main`),
* `src/DGtal/base/FunctorHolder.h` (`Invoker`, `FunctorHolder`, `holdFunctorImpl`,
  `holdFunctor`).

The classes that `main` uses and whose behaviour the specification words
(`BreadthFirstVisitor`, `DigitalSurface`, `SetFromImage`, `SetPredicate`,
`SurfelAdjacency`) are modelled from the specification, and each such definition says so
in its documentation. Its other collaborators (`atoi`, `VolReader`, `KSpace`,
`Surfaces::findABel`, the surface tracker, `QApplication`) are parameters of `main`.

The definitions come first, the theorems after them.
-/

namespace DGtal

/-! ## Graph view and breadth-first visitor -/

/-- Modelled from the spec: the graph view of a digital surface (section 4.4, class
`DigitalSurface`): a vertex is a boundary cell and `neighbors` is the output of the
tracker for that cell. -/
structure Graph (V : Type) where
  neighbors : V → List V

/-- Modelled from the spec: the visitor node of section 3 (`BreadthFirstVisitor::Node`),
a pair of a cell and its distance to the seed. -/
abbrev Node (V : Type) := V × Nat

/-- Modelled from the spec: the visitor state of section 3 (class `BreadthFirstVisitor`): a
first-in first-out queue of pending nodes and the set of the cells enqueued so far. -/
structure BreadthFirstVisitor (V : Type) [DecidableEq V] where
  queue : List (Node V)
  visited : Finset V

namespace BreadthFirstVisitor

variable {V : Type} [DecidableEq V]

/-- Modelled from the spec: `construct(graph, seed)` of section 4.5: the queue is `[seed]`
with distance 0 and the visited set is `{seed}`. -/
def construct (seed : V) : BreadthFirstVisitor V :=
  { queue := [(seed, 0)], visited := {seed} }

/-- Modelled from the spec: `finished()` of section 4.5: true iff the queue is empty. -/
def finished (vis : BreadthFirstVisitor V) : Bool :=
  vis.queue.isEmpty

/-- Modelled from the spec: `current()` of section 4.5: the front of the queue with its
recorded distance; `none` is the precondition violation of a call on a finished
visitor. -/
def current (vis : BreadthFirstVisitor V) : Option (Node V) :=
  vis.queue.head?

/-- Modelled from the spec: one turn of the loop of `expand()` (section 4.5) over the
neighbours of the popped node: a neighbour not already visited is marked visited and
appended to the queue with distance `d`; a visited one is skipped. -/
def visitNeighbor (d : Nat) (vis : BreadthFirstVisitor V) (w : V) : BreadthFirstVisitor V :=
  if w ∈ vis.visited then vis
  else { queue := vis.queue ++ [(w, d)], visited := insert w vis.visited }

/-- Modelled from the spec: `expand()` of section 4.5: pops the front node and, for each
of its neighbours not already visited, marks it visited and appends it to the queue with
the distance of the popped node plus one. On an empty queue there is nothing to pop and
the state is left as it is. -/
def expand (g : Graph V) (vis : BreadthFirstVisitor V) : BreadthFirstVisitor V :=
  match vis.queue with
  | [] => vis
  | (v, d) :: rest =>
    (g.neighbors v).foldl (visitNeighbor (d + 1)) { queue := rest, visited := vis.visited }

/-- The first `n` nodes the visitor hands out: the successive values of `current()`, one
per call of `expand()`, as long as the visitor is not finished. -/
def handedNodes (g : Graph V) : Nat → BreadthFirstVisitor V → List (Node V)
  | 0, _ => []
  | n + 1, vis =>
    match vis.current with
    | none => []
    | some node => node :: handedNodes g n (vis.expand g)

end BreadthFirstVisitor

/-! ## The display loop of `main` -/

/-- The ways a run can stop short of a `return`: a callee failed and nothing in `main`
handles it, or the model ran out of fuel while the loop was still running. -/
inductive Failure
  | notFound
  | preconditionViolation
  | outOfFuel
  deriving DecidableEq, Repr

deriving instance DecidableEq for Except

/-- The variables of `main` that its display loop (lines 112-120) reads and writes:
`visitor`, `node` (here the history of the values assigned to it), the cells sent to
`viewer`, and `nbSurfels`. The counter is an `unsigned long`; it counts pairwise distinct
cells held in memory, which stay far below `2^64`, so it is a natural number here. -/
structure LoopState (V U : Type) [DecidableEq V] where
  visitor : BreadthFirstVisitor V
  nodes : List (Node V)
  viewer : List U
  nbSurfels : Nat

variable {V U : Type} [DecidableEq V]

/-- The state before the loop: `nbSurfels = 0`, nothing displayed. -/
def loopStart (visitor : BreadthFirstVisitor V) : LoopState V U :=
  { visitor := visitor, nodes := [], viewer := [], nbSurfels := 0 }

/-- The body of the loop, lines 116-119:
`node = visitor.current(); viewer << ks.unsigns( node.first ); ++nbSurfels;
visitor.expand();`. -/
def loopBody (g : Graph V) (unsigns : V → U) (s : LoopState V U) :
    Except Failure (LoopState V U) :=
  match s.visitor.current with
  | none => .error .preconditionViolation
  | some node =>
    .ok { visitor := s.visitor.expand g
          nodes := s.nodes ++ [node]
          viewer := s.viewer ++ [unsigns node.1]
          nbSurfels := s.nbSurfels + 1 }

/-- The loop `while ( ! visitor.finished() ) { ... }` of lines 114-120, with `fuel`
bounding the number of evaluations of the loop condition. -/
def displayLoop (g : Graph V) (unsigns : V → U) :
    Nat → LoopState V U → Except Failure (LoopState V U)
  | 0, _ => .error .outOfFuel
  | fuel + 1, s =>
    if s.visitor.finished then .ok s
    else
      match loopBody g unsigns s with
      | .error e => .error e
      | .ok s' => displayLoop g unsigns fuel s'

/-- The cells that can be reached from `seed` by following `neighbors`. -/
def Reachable (g : Graph V) (seed v : V) : Prop :=
  Relation.ReflTransGen (fun a b => b ∈ g.neighbors a) seed v

/-! ## Invariants of the traversal -/

namespace BreadthFirstVisitor

/-- The cells of a list of nodes. -/
abbrev cells (l : List (Node V)) : List V := l.map Prod.fst

/-- The invariant of a traversal from `seed`, for the nodes `handed` out so far and the
state `vis` of the visitor: no cell occurs twice among the handed and the pending nodes,
these cells are exactly the visited ones, every visited cell is reachable from the seed,
and every neighbour of a handed cell is visited. -/
structure Inv (g : Graph V) (seed : V) (handed : List (Node V))
    (vis : BreadthFirstVisitor V) : Prop where
  nodup : (cells (handed ++ vis.queue)).Nodup
  visited_eq : vis.visited = (cells (handed ++ vis.queue)).toFinset
  seed_mem : seed ∈ vis.visited
  reach : ∀ v ∈ vis.visited, Reachable g seed v
  closed : ∀ x ∈ handed, ∀ w ∈ g.neighbors x.1, w ∈ vis.visited

/-- The order of the queue: the pending distances are in non-decreasing order, and none
exceeds the distance of the front node by more than one. -/
structure QueueOrdered (vis : BreadthFirstVisitor V) : Prop where
  sorted : vis.queue.Pairwise (fun a b => a.2 ≤ b.2)
  bound : ∀ x ∈ vis.queue, ∀ y ∈ vis.queue.head?, x.2 ≤ y.2 + 1

end BreadthFirstVisitor

open BreadthFirstVisitor

/-- The invariant of the display loop: the traversal invariant for the nodes assigned to
`node` so far, one displayed cell and one count per such node. -/
structure LoopInv (g : Graph V) (unsigns : V → U) (seed : V) (s : LoopState V U) : Prop where
  inv : Inv g seed s.nodes s.visitor
  viewer_eq : s.viewer = s.nodes.map (fun n => unsigns n.1)
  count_eq : s.nbSurfels = s.nodes.length

/-! ## The program `volBreadthFirstTraversal` -/

/-- A point of the digital space `Z3i`. -/
abbrev Point := Int × Int × Int

/-- Modelled from the spec: the input region of section 6 (the image read from the vol
file): a domain given by its lower and upper bound, and a mapping from grid coordinates
to a scalar value (`ImageSelector<Domain, int>::Type`). -/
structure Image where
  lowerBound : Point
  upperBound : Point
  value : Point → Int

/-- Modelled from the spec: the domain of an image (section 6), the points between the
lower and the upper bound on every axis. -/
def Image.domain (image : Image) : Finset Point :=
  Finset.Icc image.lowerBound image.upperBound

/-- A set of points of the digital space (`Z3i::DigitalSet`). -/
abbrev DigitalSet := Finset Point

/-- Modelled from the spec: `SetFromImage<DigitalSet>::append` as section 6 words the
membership it induces (`value in [minThreshold, maxThreshold]`): every point of the image
domain whose value lies between the two thresholds, both included, is added to the
set. -/
def SetFromImage.append (aSet : DigitalSet) (image : Image) (minVal maxVal : Int) :
    DigitalSet :=
  aSet ∪ image.domain.filter (fun p => minVal ≤ image.value p ∧ image.value p ≤ maxVal)

/-- Modelled from the spec: the membership predicate of section 3 over a digital set
(`SetPredicate<DigitalSet>`). -/
def SetPredicate (aSet : DigitalSet) : Point → Bool :=
  fun p => decide (p ∈ aSet)

/-- Modelled from the spec: the adjacency rule of section 3 (`SurfelAdjacency<3>`), one
boolean per pair of axes, `true` for the interior convention. -/
structure SurfelAdjacency where
  interior : Fin 3 → Fin 3 → Bool

instance : DecidableEq SurfelAdjacency := fun a b =>
  decidable_of_iff (a.interior = b.interior) (by cases a; cases b; simp)

/-- Modelled from the spec: the adjacency rule built from a single boolean, the same
convention for every pair of axes (`SurfelAdjacency( bool int_adjacency )`). -/
def SurfelAdjacency.uniform (int_adjacency : Bool) : SurfelAdjacency :=
  { interior := fun _ _ => int_adjacency }

/-- The conversion of an `int` to `unsigned int` (32 bits). -/
def toUnsignedInt (n : Int) : Nat :=
  (n % 4294967296).toNat

/-- The collaborators of `main` whose code is outside this development, for a type `K` of
Khalimsky spaces, `S` of signed cells and `C` of unsigned cells. -/
structure Collaborators (K S C : Type) where
  /-- The C function `atoi`. -/
  atoi : String → Int
  /-- The image `VolReader<Image>::importVol` reads from a file. -/
  volReader : String → Image
  /-- The space after `ks.init( lower, upper, closed )` on a fresh `KSpace`, and the
  boolean the call returns. -/
  ksInit : Point → Point → Bool → K × Bool
  /-- Modelled from the spec: `Surfaces<KSpace>::findABel` (section 4.3), which returns a
  boundary cell or fails with `NotFound` when none is located within `maxSteps`
  probes. -/
  findABel : K → (Point → Bool) → Nat → Except Failure S
  /-- The neighbours of a surfel on the surface tracked by
  `LightImplicitDigitalSurface( ks, predicate, surfAdj, bel )`. -/
  neighbors : K → (Point → Bool) → SurfelAdjacency → S → S → List S
  /-- The method `KSpace::unsigns`. -/
  unsigns : K → S → C
  /-- The value `application.exec()` returns. -/
  exec : Int

/-- What a run of `main` does that can be observed from outside, in order. -/
inductive Event (S C : Type)
  /-- The text of `usage`, which starts with the program name `argv[ 0 ]`. -/
  | usage (program : String)
  | importVol (fileName : String)
  | ksInit (lower upper : Point) (closed : Bool)
  /-- The text sent to `trace.error()`. -/
  | error (text : String)
  | findABel (maxSteps : Nat)
  /-- The construction of the surface container and of the digital surface. -/
  | surface (surfAdj : SurfelAdjacency) (bel : S)
  /-- The construction of the visitor. -/
  | visitor (seed : S)
  /-- A cell sent to the viewer. -/
  | display (cell : C)
  /-- The line `nb surfels = ...` sent to `trace.info()`. -/
  | info (nbSurfels : Nat)
  | exec
  deriving DecidableEq

/-- Whether an event belongs to the seed search, the construction of the surface or the
traversal, that is to lines 96-125 of `main`. -/
def Event.isTracking {S C : Type} : Event S C → Bool
  | .findABel _ => true
  | .surface _ _ => true
  | .visitor _ => true
  | .display _ => true
  | .info _ => true
  | .exec => true
  | _ => false

/-- How a run of `main` ends: `main` returns a status to its caller, or a failure leaves
`main` without a `return`. -/
inductive Outcome
  | returned (status : Int)
  | failed (failure : Failure)
  deriving DecidableEq, Repr

/-- A run of `main`: its events in order, and how it ends. -/
structure Run (S C : Type) where
  events : List (Event S C)
  outcome : Outcome

/-- The local variables of `main` after lines 55-67. -/
structure Shape where
  inputFilename : String
  minThreshold : Nat
  maxThreshold : Nat
  image : Image
  set3d : DigitalSet

/-- The predicate `set3dPredicate` of line 64, which reads the set `set3d`. -/
def Shape.set3dPredicate (shape : Shape) : Point → Bool :=
  SetPredicate shape.set3d

variable {K S C : Type}

/-- Lines 55-67 of `main`: the three arguments are read, the image is imported, and the
set `set3d`, empty at first, receives the points selected by the two thresholds. An
argument `argv[ i ]` that does not exist reads as the empty string. -/
def readShape (w : Collaborators K S C) (argv : List String) : Shape :=
  let inputFilename := argv.getD 1 ""
  let minThreshold := toUnsignedInt (w.atoi (argv.getD 2 ""))
  let maxThreshold := toUnsignedInt (w.atoi (argv.getD 3 ""))
  let image := w.volReader inputFilename
  { inputFilename := inputFilename
    minThreshold := minThreshold
    maxThreshold := maxThreshold
    image := image
    set3d := SetFromImage.append ∅ image minThreshold maxThreshold }

/-- Lines 96-125 of `main`, once the space `ks` is built: the seed search, the
construction of the surface and of the visitor, the display loop and the final
`application.exec()`. A failure of `findABel` is not handled and leaves `main`. The
events of a loop that fails are not kept. -/
def trackAndDisplay [DecidableEq S] (w : Collaborators K S C) (fuel : Nat) (shape : Shape)
    (ks : K) (before : List (Event S C)) : Run S C :=
  let surfAdj := SurfelAdjacency.uniform true
  match w.findABel ks shape.set3dPredicate 100000 with
  | .error e => { events := before ++ [.findABel 100000], outcome := .failed e }
  | .ok bel =>
    let digSurf : Graph S := { neighbors := w.neighbors ks shape.set3dPredicate surfAdj bel }
    let visitor := construct bel
    let built := before ++ [.findABel 100000, .surface surfAdj bel, .visitor bel]
    match displayLoop digSurf (w.unsigns ks) fuel (loopStart visitor) with
    | .error e => { events := built, outcome := .failed e }
    | .ok s =>
      { events := built ++ s.viewer.map .display ++ [.info s.nbSurfels, .exec]
        outcome := .returned w.exec }

/-- The function `main`: `argv` is the argument list with the program name first, so that
`argc` is its length. The trace blocks and the set-up of the viewer are left out. -/
def main [DecidableEq S] (w : Collaborators K S C) (fuel : Nat) (argv : List String) :
    Run S C :=
  if argv.length < 4 then
    { events := [.usage (argv.getD 0 "")], outcome := .returned 1 }
  else
    let shape := readShape w argv
    let init := w.ksInit shape.image.lowerBound shape.image.upperBound true
    let read : List (Event S C) :=
      [.importVol shape.inputFilename,
       .ksInit shape.image.lowerBound shape.image.upperBound true]
    if !init.2 then
      { events := read ++ [.error "Error in the Khamisky space construction."]
        outcome := .returned 2 }
    else
      trackAndDisplay w fuel shape init.1 read

/-! ## `FunctorHolder` -/

/-- The callable objects of type `F` that are alive, each at its address: the address of
an object is its index in `objects`. -/
structure Memory (F : Type) where
  objects : List F
  deriving DecidableEq

/-- How objects of type `F` are called with a list of arguments of type `A`, for results
of type `R`. The list stands for the arguments `(a1, ..., an)` of any arity `n >= 0`,
and `none` says that the object does not accept them. -/
structure Callable (F A R : Type) where
  /-- The call `f(a1, ..., an)` of an object that may be modified: the returned value and
  the object after the call. -/
  call : F → List A → Option (R × F)
  /-- The call `f(a1, ..., an)` of a constant object: the returned value. -/
  callConst : F → List A → Option R

section FunctorHolder

variable {F A R : Type}

/-- The object at an address, if there is one. -/
def Memory.read (m : Memory F) (address : Nat) : Option F :=
  m.objects[address]?

/-- The memory after the object at an address has been changed to `f`. -/
def Memory.write (m : Memory F) (address : Nat) (f : F) : Memory F :=
  { objects := m.objects.set address f }

/-- A new object `f` is allocated (`std::make_shared`): the memory with the new object,
and its address. -/
def Memory.alloc (m : Memory F) (f : F) : Memory F × Nat :=
  ({ objects := m.objects ++ [f] }, m.objects.length)

/-- The call `f(a1, ..., an)` of the object `f` that lives at `address`: the returned
value, and the memory in which `f` is as the call left it. -/
def Memory.call (c : Callable F A R) (m : Memory F) (address : Nat) (args : List A) :
    Option (R × Memory F) :=
  match m.read address with
  | none => none
  | some f =>
    match c.call f args with
    | none => none
    | some (r, f') => some (r, m.write address f')

/-- The types `FunctorStorage` that `FunctorHolder` is used with: `std::shared_ptr` and
`std::reference_wrapper`, which hold the address of the callable object, and two kinds
of any other, custom, storage: the callable object held by value (`F`), and a storage
that points to the callable object, such as a raw pointer (`F*`). -/
inductive FunctorStorage (F : Type)
  | sharedPtr (ptr : Nat)
  | referenceWrapper (ref : Nat)
  | custom (obj : F)
  | customPointer (ptr : Nat)

/-- The copy of a storage: a shared pointer, a reference wrapper and a custom pointer are
copied as addresses, the object held by value is copied. -/
def FunctorStorage.copy : FunctorStorage F → FunctorStorage F
  | .sharedPtr ptr => .sharedPtr ptr
  | .referenceWrapper ref => .referenceWrapper ref
  | .custom obj => .custom obj
  | .customPointer ptr => .customPointer ptr

/-- The address of the callable object behind a storage, when the storage refers to an
object rather than containing one. -/
def FunctorStorage.target : FunctorStorage F → Option Nat
  | .sharedPtr ptr => some ptr
  | .referenceWrapper ref => some ref
  | .custom _ => none
  | .customPointer ptr => some ptr

/-- The expression `fn(args...)` for a storage `fn`, which `isConst` says to be constant
or not. A reference wrapper calls the object it refers to, whether the wrapper is
constant or not; an object held by value is called as a constant or as a modifiable
object; a shared pointer and a custom pointer cannot be called. The result is the
returned value, the memory and the storage after the call. -/
def FunctorStorage.invoke (c : Callable F A R) (isConst : Bool) (fn : FunctorStorage F)
    (m : Memory F) (args : List A) : Option (R × Memory F × FunctorStorage F) :=
  match fn with
  | .referenceWrapper ref => (m.call c ref args).map (fun rm => (rm.1, rm.2, fn))
  | .custom obj =>
    if isConst then (c.callConst obj args).map (fun r => (r, m, fn))
    else (c.call obj args).map (fun rf => (rf.1, m, .custom rf.2))
  | .sharedPtr _ => none
  | .customPointer _ => none

/-- The expression `(*fn)(args...)` for a storage `fn`: a shared pointer or a custom
pointer, constant or not, gives the object it points to, which is then called as a
modifiable object; a reference wrapper and an object held by value cannot be
dereferenced. -/
def FunctorStorage.derefInvoke (c : Callable F A R) (fn : FunctorStorage F)
    (m : Memory F) (args : List A) : Option (R × Memory F × FunctorStorage F) :=
  match fn with
  | .sharedPtr ptr => (m.call c ptr args).map (fun rm => (rm.1, rm.2, fn))
  | .customPointer ptr => (m.call c ptr args).map (fun rm => (rm.1, rm.2, fn))
  | _ => none

/-- The two `Invoker<bool>::apply`: `Invoker<false>` calls `fn(args...)` and
`Invoker<true>` calls `(*fn)(args...)`. -/
def Invoker.apply (c : Callable F A R) (needDereference isConst : Bool)
    (fn : FunctorStorage F) (m : Memory F) (args : List A) :
    Option (R × Memory F × FunctorStorage F) :=
  if needDereference then fn.derefInvoke c m args
  else fn.invoke c isConst m args

/-- The class `FunctorHolder<FunctorStorage, NeedDereference>`. -/
structure FunctorHolder (F : Type) where
  myFunctor : FunctorStorage F
  NeedDereference : Bool

namespace FunctorHolder

/-- The copy constructor and the assignment of `FunctorHolder`, both implicit: the member
`myFunctor` is copied; no object is allocated. -/
def copy (h : FunctorHolder F) (m : Memory F) : FunctorHolder F × Memory F :=
  ({ myFunctor := h.myFunctor.copy, NeedDereference := h.NeedDereference }, m)

/-- The `operator()` of a constant holder, lines 458-463: `myFunctor` is constant in the
call of `Invoker<NeedDereference>::apply`. The holder is as before; the result is the
returned value and the memory after the call. -/
def callConst (c : Callable F A R) (h : FunctorHolder F) (m : Memory F) (args : List A) :
    Option (R × Memory F) :=
  (Invoker.apply c h.NeedDereference true h.myFunctor m args).map (fun r => (r.1, r.2.1))

/-- The `operator()` of a modifiable holder, lines 470-475: the result is the returned
value, the memory and the holder after the call. -/
def callMutable (c : Callable F A R) (h : FunctorHolder F) (m : Memory F) (args : List A) :
    Option (R × Memory F × FunctorHolder F) :=
  (Invoker.apply c h.NeedDereference false h.myFunctor m args).map
    (fun r => (r.1, r.2.1, { myFunctor := r.2.2, NeedDereference := h.NeedDereference }))

end FunctorHolder

/-- The trait `SharedPtrTrait::apply`. -/
def SharedPtrTrait.apply : FunctorStorage F → Bool
  | .sharedPtr _ => true
  | _ => false

/-- The trait `ReferenceWrapperTrait::apply`. -/
def ReferenceWrapperTrait.apply : FunctorStorage F → Bool
  | .referenceWrapper _ => true
  | _ => false

/-- The method `FunctorHolder::selfDisplay`: the stream `out` after the writing. -/
def FunctorHolder.selfDisplay (h : FunctorHolder F) (out : String) : String :=
  let out := out ++ "[FunctorHolder]"
  if SharedPtrTrait.apply h.myFunctor then
    out ++ " using std::shared_ptr storage (rvalue)"
  else if ReferenceWrapperTrait.apply h.myFunctor then
    out ++ " using std::reference_wrapper storage (lvalue)"
  else
    out ++ " using custom storage"

/-- The method `FunctorHolder::isValid`. -/
def FunctorHolder.isValid (_h : FunctorHolder F) : Bool :=
  true

/-- The argument `Function && fn` of `holdFunctor`: an lvalue, that is an object of the
caller, given by its address, or an rvalue, a temporary or an object given up with
`std::move`, given by its value. -/
inductive Passed (F : Type)
  | lvalue (address : Nat)
  | rvalue (object : F)

/-- The trait `std::is_lvalue_reference<Function>` for the type deduced from an
argument. -/
def Passed.is_lvalue_reference : Passed F → Bool
  | .lvalue _ => true
  | .rvalue _ => false

/-- The two overloads of `holdFunctorImpl`, chosen by the tag `std::true_type` or
`std::false_type`. With `std::true_type` the holder stores `std::ref( fn )` and does not
dereference; with `std::false_type` it stores a shared pointer to a new object built
from `fn` by `std::make_shared`, and dereferences. The result is the holder and the
memory after the call; there is none for a tag that does not fit the argument, which
does not compile (`std::ref` of an rvalue, a shared pointer to a reference). -/
def holdFunctorImpl (fn : Passed F) (tag : Bool) (m : Memory F) :
    Option (FunctorHolder F × Memory F) :=
  match tag, fn with
  | true, .lvalue address =>
    some ({ myFunctor := .referenceWrapper address, NeedDereference := false }, m)
  | false, .rvalue object =>
    some ({ myFunctor := .sharedPtr (m.alloc object).2, NeedDereference := true },
      (m.alloc object).1)
  | _, _ => none

/-- The helper `holdFunctor`, lines 551-556. -/
def holdFunctor (fn : Passed F) (m : Memory F) : Option (FunctorHolder F × Memory F) :=
  holdFunctorImpl fn fn.is_lvalue_reference m

end FunctorHolder

/-! ## Decidable equality of storages and holders -/

deriving instance DecidableEq for FunctorStorage

deriving instance DecidableEq for FunctorHolder

/-! ## Concrete data -/

/-- The boundary of a single voxel as a graph: six surfels, numbered so that `2k` and
`2k+1` are the two faces orthogonal to axis `k`; each surfel is adjacent to the four
surfels that share an edge with it, that is to all but itself and the opposite face. -/
def voxelSurface : Graph (Fin 6) where
  neighbors := fun v =>
    if v.val / 2 = 0 then [2, 3, 4, 5]
    else if v.val / 2 = 1 then [0, 1, 4, 5]
    else [0, 1, 2, 3]

/-- The value of a string of decimal digits. -/
def digitsValue (s : String) : Int :=
  s.data.foldl (fun n c => 10 * n + ((c.toNat : Int) - 48)) 0

/-- An image of 3 x 3 x 3 voxels whose centre has value 128 and whose other voxels have
value 0. -/
def voxelImage : Image where
  lowerBound := (0, 0, 0)
  upperBound := (2, 2, 2)
  value := fun p => if p = (1, 1, 1) then 128 else 0

/-- An image whose upper bound is below its lower bound. -/
def voidImage : Image where
  lowerBound := (0, 0, 0)
  upperBound := (-1, -1, -1)
  value := fun _ => 0

/-- Collaborators for the image of a single voxel: the file `voxel.vol` holds
`voxelImage` and any other file `voidImage`, the space is accepted when the lower bound
is below the upper bound on every axis, the seed search probes the centre of the image
only, and the tracked surface is `voxelSurface`. -/
def voxelWorld : Collaborators Unit (Fin 6) (Fin 6) where
  atoi := digitsValue
  volReader := fun fileName => if fileName = "voxel.vol" then voxelImage else voidImage
  ksInit := fun lower upper _ =>
    ((), decide (lower.1 ≤ upper.1 ∧ lower.2.1 ≤ upper.2.1 ∧ lower.2.2 ≤ upper.2.2))
  findABel := fun _ predicate _ => if predicate (1, 1, 1) then .ok 0 else .error .notFound
  neighbors := fun _ _ _ _ => voxelSurface.neighbors
  unsigns := fun _ s => s
  exec := 0

/-- A functor with one attribute, a running total: a call adds its arguments to the total
and returns the new total; a constant functor returns that sum and keeps its total. -/
def accumulator : Callable Int Int Int where
  call := fun total args => some (total + args.sum, total + args.sum)
  callConst := fun total args => some (total + args.sum)

/-! # Theorems -/

/-! ## Lemmas on the visitor -/

namespace BreadthFirstVisitor

theorem foldl_visitNeighbor (d : Nat) (ws : List V) (a : BreadthFirstVisitor V) :
    ∃ fresh : List V,
      (ws.foldl (visitNeighbor d) a).queue = a.queue ++ fresh.map (fun w => (w, d)) ∧
      (ws.foldl (visitNeighbor d) a).visited = a.visited ∪ fresh.toFinset ∧
      fresh.Nodup ∧ (∀ w ∈ fresh, w ∉ a.visited ∧ w ∈ ws) ∧
      (∀ w ∈ ws, w ∈ (ws.foldl (visitNeighbor d) a).visited) := by
  induction ws generalizing a with
  | nil => exact ⟨[], by simp⟩
  | cons w ws ih =>
    by_cases hw : w ∈ a.visited
    · obtain ⟨fresh, hq, hv, hnd, hfresh, hall⟩ := ih a
      have hstep : visitNeighbor d a w = a := by simp [visitNeighbor, hw]
      refine ⟨fresh, ?_, ?_, hnd, ?_, ?_⟩
      · simpa [List.foldl_cons, hstep] using hq
      · simpa [List.foldl_cons, hstep] using hv
      · intro x hx
        exact ⟨(hfresh x hx).1, List.mem_cons_of_mem _ (hfresh x hx).2⟩
      · intro x hx
        simp only [List.foldl_cons, hstep]
        rcases List.mem_cons.mp hx with rfl | hx
        · rw [hv]; exact Finset.mem_union_left _ hw
        · exact hall x hx
    · have hstep : visitNeighbor d a w =
          { queue := a.queue ++ [(w, d)], visited := insert w a.visited } := by
        simp [visitNeighbor, hw]
      obtain ⟨fresh, hq, hv, hnd, hfresh, hall⟩ := ih (visitNeighbor d a w)
      rw [hstep] at hq hv hfresh hall
      refine ⟨w :: fresh, ?_, ?_, ?_, ?_, ?_⟩
      · simp only [List.foldl_cons, hstep]
        simpa using hq
      · simp only [List.foldl_cons, hstep]
        rw [hv]
        ext x
        simp [or_assoc, or_left_comm]
      · refine List.nodup_cons.mpr ⟨?_, hnd⟩
        intro hmem
        exact (hfresh w hmem).1 (Finset.mem_insert_self _ _)
      · intro x hx
        rcases List.mem_cons.mp hx with rfl | hx
        · exact ⟨hw, List.mem_cons_self _ _⟩
        · refine ⟨?_, List.mem_cons_of_mem _ (hfresh x hx).2⟩
          intro hxa
          exact (hfresh x hx).1 (Finset.mem_insert_of_mem hxa)
      · intro x hx
        simp only [List.foldl_cons, hstep]
        rcases List.mem_cons.mp hx with rfl | hx
        · rw [hv]; exact Finset.mem_union_left _ (Finset.mem_insert_self _ _)
        · exact hall x hx

/-- What `expand()` does to a visitor whose queue starts with `(v, d)`. -/
theorem expand_cons (g : Graph V) (vis : BreadthFirstVisitor V) (v : V) (d : Nat)
    (rest : List (Node V)) (hq : vis.queue = (v, d) :: rest) :
    ∃ fresh : List V,
      (vis.expand g).queue = rest ++ fresh.map (fun w => (w, d + 1)) ∧
      (vis.expand g).visited = vis.visited ∪ fresh.toFinset ∧
      fresh.Nodup ∧ (∀ w ∈ fresh, w ∉ vis.visited ∧ w ∈ g.neighbors v) ∧
      (∀ w ∈ g.neighbors v, w ∈ (vis.expand g).visited) := by
  have h := foldl_visitNeighbor (d + 1) (g.neighbors v)
    ({ queue := rest, visited := vis.visited } : BreadthFirstVisitor V)
  have he : vis.expand g = (g.neighbors v).foldl (visitNeighbor (d + 1))
      { queue := rest, visited := vis.visited } := by
    simp [expand, hq]
  rw [he]
  exact h

theorem inv_construct (g : Graph V) (seed : V) : Inv g seed [] (construct seed) where
  nodup := by simp [construct]
  visited_eq := by simp [construct]
  seed_mem := by simp [construct]
  reach := by
    intro v hv
    have : v = seed := by simpa [construct] using hv
    rw [this]
    exact Relation.ReflTransGen.refl
  closed := by simp

theorem inv_expand {g : Graph V} {seed : V} {handed : List (Node V)}
    {vis : BreadthFirstVisitor V} (h : Inv g seed handed vis) {v : V} {d : Nat}
    {rest : List (Node V)} (hq : vis.queue = (v, d) :: rest) :
    Inv g seed (handed ++ [(v, d)]) (vis.expand g) := by
  obtain ⟨fresh, hq', hv', hnd, hfresh, hall⟩ := expand_cons g vis v d rest hq
  have hcells : cells ((handed ++ [(v, d)]) ++ (vis.expand g).queue) =
      cells (handed ++ vis.queue) ++ fresh := by
    rw [hq', hq]
    simp [cells, Function.comp_def]
  have hvmem : v ∈ vis.visited := by
    rw [h.visited_eq, hq]; simp [cells]
  refine ⟨?_, ?_, ?_, ?_, ?_⟩
  · rw [hcells]
    refine List.Nodup.append h.nodup hnd ?_
    intro x hx hx'
    apply (hfresh x hx').1
    rw [h.visited_eq]
    exact List.mem_toFinset.mpr hx
  · rw [hcells, hv', h.visited_eq, List.toFinset_append]
  · rw [hv']
    exact Finset.mem_union_left _ h.seed_mem
  · intro x hx
    rw [hv'] at hx
    rcases Finset.mem_union.mp hx with hx | hx
    · exact h.reach x hx
    · have hxn := (hfresh x (List.mem_toFinset.mp hx)).2
      exact Relation.ReflTransGen.tail (h.reach v hvmem) hxn
  · intro x hx w hw
    rcases List.mem_append.mp hx with hx | hx
    · rw [hv']
      exact Finset.mem_union_left _ (h.closed x hx w hw)
    · have hx2 : x = (v, d) := by simpa using hx
      subst hx2
      exact hall w hw

/-- Once the queue is empty, the visited cells are exactly the cells reachable from the
seed. -/
theorem Inv.mem_handed_iff {g : Graph V} {seed : V} {handed : List (Node V)}
    {vis : BreadthFirstVisitor V} (h : Inv g seed handed vis) (hq : vis.queue = []) (v : V) :
    v ∈ cells handed ↔ Reachable g seed v := by
  have hvis : ∀ x, x ∈ vis.visited ↔ x ∈ cells handed := by
    intro x
    rw [h.visited_eq, hq]
    simp
  constructor
  · intro hv
    exact h.reach v ((hvis v).mpr hv)
  · intro hr
    induction hr with
    | refl => exact (hvis seed).mp h.seed_mem
    | tail _ hbc ih =>
      obtain ⟨x, hx, hxb⟩ := List.mem_map.mp ih
      subst hxb
      exact (hvis _).mp (h.closed x hx _ hbc)

/-- The handed and the pending nodes are never more than the reachable cells. -/
theorem Inv.length_le {g : Graph V} {seed : V} {handed : List (Node V)}
    {vis : BreadthFirstVisitor V} (h : Inv g seed handed vis)
    (hfin : Set.Finite {v | Reachable g seed v}) :
    (handed ++ vis.queue).length ≤ Set.ncard {v | Reachable g seed v} := by
  have hsub : (cells (handed ++ vis.queue)).toFinset ⊆ hfin.toFinset := by
    intro x hx
    rw [← h.visited_eq] at hx
    simpa using h.reach x hx
  have hcard := Finset.card_le_card hsub
  rw [List.toFinset_card_of_nodup h.nodup] at hcard
  rw [Set.ncard_eq_toFinset_card _ hfin]
  simpa [cells] using hcard

end BreadthFirstVisitor

/-! ## Lemmas on the display loop -/

theorem loopInv_start (g : Graph V) (unsigns : V → U) (seed : V) :
    LoopInv g unsigns seed (loopStart (construct seed)) where
  inv := inv_construct g seed
  viewer_eq := rfl
  count_eq := rfl

/-- On a finite component the loop returns as soon as the fuel exceeds the number of
reachable cells not yet handed out, and it returns a finished visitor that satisfies the
invariant. -/
theorem displayLoop_ok {g : Graph V} {unsigns : V → U} {seed : V}
    (hfin : Set.Finite {v | Reachable g seed v}) (fuel : Nat) (s : LoopState V U)
    (hs : LoopInv g unsigns seed s)
    (hfuel : Set.ncard {v | Reachable g seed v} < fuel + s.nodes.length) :
    ∃ out, displayLoop g unsigns fuel s = .ok out ∧ out.visitor.queue = [] ∧
      LoopInv g unsigns seed out := by
  induction fuel generalizing s with
  | zero =>
    have hle := hs.inv.length_le hfin
    simp only [List.length_append] at hle
    omega
  | succ fuel ih =>
    cases hq : s.visitor.queue with
    | nil =>
      refine ⟨s, ?_, hq, hs⟩
      simp [displayLoop, finished, hq]
    | cons nd rest =>
      obtain ⟨v, d⟩ := nd
      have hbody : loopBody g unsigns s = .ok
          { visitor := s.visitor.expand g
            nodes := s.nodes ++ [(v, d)]
            viewer := s.viewer ++ [unsigns v]
            nbSurfels := s.nbSurfels + 1 } := by
        simp [loopBody, current, hq]
      have hinv : LoopInv g unsigns seed
          { visitor := s.visitor.expand g
            nodes := s.nodes ++ [(v, d)]
            viewer := s.viewer ++ [unsigns v]
            nbSurfels := s.nbSurfels + 1 } :=
        { inv := inv_expand hs.inv hq
          viewer_eq := by simp [hs.viewer_eq]
          count_eq := by simp [hs.count_eq] }
      obtain ⟨out, hout, hfinished, hoinv⟩ := ih _ hinv (by simp; omega)
      refine ⟨out, ?_, hfinished, hoinv⟩
      simp [displayLoop, finished, hq, hbody, hout]

/-- The nodes assigned to `node` during the loop are the nodes the visitor hands out. -/
theorem displayLoop_nodes (g : Graph V) (unsigns : V → U) (fuel : Nat) (s out : LoopState V U)
    (h : displayLoop g unsigns fuel s = .ok out) :
    out.nodes = s.nodes ++ handedNodes g fuel s.visitor := by
  induction fuel generalizing s with
  | zero => simp [displayLoop] at h
  | succ fuel ih =>
    cases hq : s.visitor.queue with
    | nil =>
      have : out = s := by
        simpa [displayLoop, finished, hq] using h.symm
      simp [this, handedNodes, current, hq]
    | cons nd rest =>
      have hbody : loopBody g unsigns s = .ok
          { visitor := s.visitor.expand g
            nodes := s.nodes ++ [nd]
            viewer := s.viewer ++ [unsigns nd.1]
            nbSurfels := s.nbSurfels + 1 } := by
        simp [loopBody, current, hq]
      have h' : displayLoop g unsigns fuel
          { visitor := s.visitor.expand g
            nodes := s.nodes ++ [nd]
            viewer := s.viewer ++ [unsigns nd.1]
            nbSurfels := s.nbSurfels + 1 } = .ok out := by
        simpa [displayLoop, finished, hq, hbody] using h
      rw [ih _ h']
      simp [handedNodes, current, hq]

/-! ## Distances -/

namespace BreadthFirstVisitor

/-- The pending distances are in non-decreasing order and exceed the distance of the
front node by at most one. -/
theorem queueOrdered_expand {g : Graph V} {vis : BreadthFirstVisitor V}
    (h : QueueOrdered vis) {v : V} {d : Nat} {rest : List (Node V)}
    (hq : vis.queue = (v, d) :: rest) :
    QueueOrdered (vis.expand g) ∧ ∀ x ∈ (vis.expand g).queue, d ≤ x.2 := by
  obtain ⟨fresh, hq', -, -, -, -⟩ := expand_cons g vis v d rest hq
  have hsorted := h.sorted
  rw [hq, List.pairwise_cons] at hsorted
  have hupper : ∀ x ∈ rest, x.2 ≤ d + 1 := by
    intro x hx
    exact h.bound x (by rw [hq]; exact List.mem_cons_of_mem _ hx) (v, d) (by simp [hq])
  have hlower : ∀ x ∈ (vis.expand g).queue, d ≤ x.2 := by
    intro x hx
    rw [hq'] at hx
    rcases List.mem_append.mp hx with hx | hx
    · exact hsorted.1 x hx
    · obtain ⟨w, -, rfl⟩ := List.mem_map.mp hx
      exact Nat.le_succ d
  have hle : ∀ x ∈ (vis.expand g).queue, x.2 ≤ d + 1 := by
    intro x hx
    rw [hq'] at hx
    rcases List.mem_append.mp hx with hx | hx
    · exact hupper x hx
    · obtain ⟨w, -, rfl⟩ := List.mem_map.mp hx
      exact le_rfl
  refine ⟨⟨?_, ?_⟩, hlower⟩
  · rw [hq', List.pairwise_append]
    refine ⟨hsorted.2, ?_, ?_⟩
    · rw [List.pairwise_map]
      exact List.pairwise_of_forall (fun _ _ => le_rfl)
    · intro x hx y hy
      obtain ⟨w, -, rfl⟩ := List.mem_map.mp hy
      exact hupper x hx
  · intro x hx y hy
    have hymem : y ∈ (vis.expand g).queue := List.mem_of_mem_head? hy
    have := hlower y hymem
    have := hle x hx
    omega

theorem queueOrdered_construct (seed : V) : QueueOrdered (construct seed) where
  sorted := by simp [construct]
  bound := by
    intro x hx y hy
    simp [construct] at hx hy
    subst hx; subst hy
    exact Nat.le_succ _

/-- The handed nodes are in non-decreasing order of distance, and none is nearer to the
seed than every pending node. -/
theorem handedNodes_sorted (g : Graph V) (n : Nat) (vis : BreadthFirstVisitor V)
    (h : QueueOrdered vis) :
    (handedNodes g n vis).Pairwise (fun a b => a.2 ≤ b.2) ∧
      ∀ lower, (∀ y ∈ vis.queue, lower ≤ y.2) → ∀ x ∈ handedNodes g n vis, lower ≤ x.2 := by
  induction n generalizing vis with
  | zero => simp [handedNodes]
  | succ n ih =>
    cases hq : vis.queue with
    | nil => simp [handedNodes, current, hq]
    | cons nd rest =>
      obtain ⟨v, d⟩ := nd
      obtain ⟨hord, hlower⟩ := queueOrdered_expand (g := g) h hq
      obtain ⟨hpw, hlb⟩ := ih (vis.expand g) hord
      have hunfold : handedNodes g (n + 1) vis = (v, d) :: handedNodes g n (vis.expand g) := by
        simp [handedNodes, current, hq]
      rw [hunfold]
      refine ⟨List.pairwise_cons.mpr ⟨?_, hpw⟩, ?_⟩
      · intro x hx
        exact hlb d hlower x hx
      · intro lower hl x hx
        have hd : lower ≤ d := hl (v, d) (List.mem_cons_self _ _)
        rcases List.mem_cons.mp hx with rfl | hx
        · exact hd
        · exact hlb lower (fun y hy => le_trans hd (hlower y hy)) x hx

end BreadthFirstVisitor

/-! ## The display loop on a finite component -/

/-- Claim C1. On a graph whose component reachable from the seed is finite, the display
loop of `main`, run over the breadth-first visitor built on the seed, returns; every cell
reachable from the seed has been handed to the loop exactly once, every handed cell is
reachable from the seed, the viewer has received the unsigned form of each handed cell in
that order, and the final `nbSurfels` is the number of cells reachable from the seed. -/
theorem displayLoop_delivers_each_reachable_once (g : Graph V) (unsigns : V → U) (seed : V)
    (hfin : Set.Finite {v | Reachable g seed v}) (fuel : Nat)
    (hfuel : Set.ncard {v | Reachable g seed v} < fuel) :
    ∃ out, displayLoop g unsigns fuel (loopStart (construct seed)) = .ok out ∧
      (∀ v, Reachable g seed v → (cells out.nodes).count v = 1) ∧
      (∀ v, v ∈ cells out.nodes → Reachable g seed v) ∧
      out.viewer = (cells out.nodes).map unsigns ∧
      out.nbSurfels = Set.ncard {v | Reachable g seed v} := by
  obtain ⟨out, hout, hq, hinv⟩ :=
    displayLoop_ok hfin fuel (loopStart (construct seed)) (loopInv_start g unsigns seed)
      (by simpa [loopStart] using hfuel)
  have hnodup : (cells out.nodes).Nodup := by
    have := hinv.inv.nodup
    rwa [hq, List.append_nil] at this
  have hmem := hinv.inv.mem_handed_iff hq
  refine ⟨out, hout, ?_, ?_, ?_, ?_⟩
  · intro v hv
    exact List.count_eq_one_of_mem hnodup ((hmem v).mpr hv)
  · intro v hv
    exact (hmem v).mp hv
  · rw [hinv.viewer_eq]
    simp [cells, Function.comp_def]
  · rw [hinv.count_eq, Set.ncard_eq_toFinset_card _ hfin]
    have hset : hfin.toFinset = (cells out.nodes).toFinset := by
      ext v
      simp [hmem v]
    rw [hset, List.toFinset_card_of_nodup hnodup]
    simp [cells]

/-- Witness of claim C1 on the surface of a single voxel, from surfel 0 with fuel 7. -/
theorem displayLoop_delivers_each_reachable_once_witness :
    ∃ out, displayLoop voxelSurface id 7 (loopStart (construct (0 : Fin 6))) = .ok out ∧
      (∀ v, Reachable voxelSurface 0 v → (cells out.nodes).count v = 1) ∧
      (∀ v, v ∈ cells out.nodes → Reachable voxelSurface 0 v) ∧
      out.viewer = (cells out.nodes).map id ∧
      out.nbSurfels = Set.ncard {v | Reachable voxelSurface 0 v} :=
  displayLoop_delivers_each_reachable_once voxelSurface id 0 (Set.toFinite _) 7
    (lt_of_le_of_lt (Set.ncard_le_ncard (Set.subset_univ _) (Set.toFinite _))
      (by simp [Set.ncard_univ]))

/-- Claim C2. The nodes the breadth-first visitor hands out, taken in order, have
non-decreasing distances: of two nodes handed one after the other, the later one is at
least as far from the seed as the earlier one. This holds for every number `n` of calls
of `expand()`, and the nodes assigned to `node` by a run of the display loop of `main`
are such a sequence. -/
theorem handedNodes_distance_nondecreasing (g : Graph V) (unsigns : V → U) (seed : V)
    (n fuel : Nat) :
    List.Chain' (fun a b => a.2 ≤ b.2) (handedNodes g n (construct seed)) ∧
      match displayLoop g unsigns fuel (loopStart (construct seed)) with
      | .ok out => out.nodes = handedNodes g fuel (construct seed) ∧
          List.Chain' (fun a b => a.2 ≤ b.2) out.nodes
      | .error _ => True := by
  have hsorted : ∀ k, List.Chain' (fun a b : Node V => a.2 ≤ b.2)
      (handedNodes g k (construct seed)) := fun k =>
    List.Pairwise.chain' (handedNodes_sorted g k (construct seed) (queueOrdered_construct seed)).1
  refine ⟨hsorted n, ?_⟩
  cases hrun : displayLoop g unsigns fuel (loopStart (construct seed)) with
  | error e => trivial
  | ok out =>
    have hnodes := displayLoop_nodes g unsigns fuel _ out hrun
    simp only [loopStart, List.nil_append] at hnodes
    exact ⟨hnodes, hnodes ▸ hsorted fuel⟩

/-- Claim C3. On a graph whose component reachable from the seed is finite, the display
loop of `main` terminates: with any fuel above the number of reachable cells the loop
returns, and it returns in a state where `visitor.finished()` is true. -/
theorem displayLoop_terminates (g : Graph V) (unsigns : V → U) (seed : V)
    (hfin : Set.Finite {v | Reachable g seed v}) (fuel : Nat)
    (hfuel : Set.ncard {v | Reachable g seed v} < fuel) :
    ∃ out, displayLoop g unsigns fuel (loopStart (construct seed)) = .ok out ∧
      out.visitor.finished = true := by
  obtain ⟨out, hout, hq, -⟩ :=
    displayLoop_ok hfin fuel (loopStart (construct seed)) (loopInv_start g unsigns seed)
      (by simpa [loopStart] using hfuel)
  exact ⟨out, hout, by simp [finished, hq]⟩

/-- Witness of claim C3 on the surface of a single voxel, from surfel 2 with fuel 9. -/
theorem displayLoop_terminates_witness :
    ∃ out, displayLoop voxelSurface id 9 (loopStart (construct (2 : Fin 6))) = .ok out ∧
      out.visitor.finished = true :=
  displayLoop_terminates voxelSurface id 2 (Set.toFinite _) 9
    (lt_of_le_of_lt (Set.ncard_le_ncard (Set.subset_univ _) (Set.toFinite _))
      (by simp [Set.ncard_univ]))

/-! ## The control flow of `main` -/

/-- The run of `main` when the initialisation of the space fails. -/
theorem main_of_init_false [DecidableEq S] (w : Collaborators K S C) (fuel : Nat)
    (argv : List String) (hargs : 4 ≤ argv.length)
    (hinit : (w.ksInit (readShape w argv).image.lowerBound
      (readShape w argv).image.upperBound true).2 = false) :
    main w fuel argv =
      { events := [.importVol (readShape w argv).inputFilename,
          .ksInit (readShape w argv).image.lowerBound (readShape w argv).image.upperBound true,
          .error "Error in the Khamisky space construction."]
        outcome := .returned 2 } := by
  have hlen : ¬ argv.length < 4 := by omega
  simp [main, hlen, hinit]

/-- The run of `main` when the initialisation of the space succeeds. -/
theorem main_of_init_true [DecidableEq S] (w : Collaborators K S C) (fuel : Nat)
    (argv : List String) (hargs : 4 ≤ argv.length)
    (hinit : (w.ksInit (readShape w argv).image.lowerBound
      (readShape w argv).image.upperBound true).2 = true) :
    main w fuel argv =
      trackAndDisplay w fuel (readShape w argv)
        (w.ksInit (readShape w argv).image.lowerBound
          (readShape w argv).image.upperBound true).1
        [.importVol (readShape w argv).inputFilename,
          .ksInit (readShape w argv).image.lowerBound (readShape w argv).image.upperBound true] := by
  have hlen : ¬ argv.length < 4 := by omega
  simp [main, hlen, hinit]

/-- Every surface that a run of `main` builds uses the interior adjacency. -/
theorem trackAndDisplay_surface [DecidableEq S] (w : Collaborators K S C) (fuel : Nat)
    (shape : Shape) (ks : K) (before : List (Event S C))
    (hbefore : ∀ adj bel, Event.surface adj bel ∉ before)
    (adj : SurfelAdjacency) (bel : S)
    (h : Event.surface adj bel ∈ (trackAndDisplay w fuel shape ks before).events) :
    adj = SurfelAdjacency.uniform true := by
  unfold trackAndDisplay at h
  cases hbel : w.findABel ks shape.set3dPredicate 100000 with
  | error e =>
    simp [hbel] at h
    exact absurd h (hbefore adj bel)
  | ok b =>
    simp only [hbel] at h
    generalize displayLoop _ (w.unsigns ks) fuel (loopStart (construct b)) = r at h
    cases r with
    | error e =>
      simp at h
      rcases h with h | h
      · exact absurd h (hbefore adj bel)
      · exact h.1
    | ok s =>
      simp at h
      rcases h with h | h
      · exact absurd h (hbefore adj bel)
      · exact h.1

theorem main_surface [DecidableEq S] (w : Collaborators K S C) (fuel : Nat)
    (argv : List String) (adj : SurfelAdjacency) (bel : S)
    (h : Event.surface adj bel ∈ (main w fuel argv).events) :
    adj = SurfelAdjacency.uniform true := by
  unfold main at h
  by_cases hlen : argv.length < 4
  · simp [hlen] at h
  · by_cases hinit : (w.ksInit (readShape w argv).image.lowerBound
        (readShape w argv).image.upperBound true).2 = true
    · simp only [hlen, hinit, if_false, Bool.not_true] at h
      exact trackAndDisplay_surface w fuel _ _ _ (by simp) adj bel h
    · simp [hlen, hinit] at h

/-- The run of `main` when the seed search fails. -/
theorem main_of_findABel_error [DecidableEq S] (w : Collaborators K S C) (fuel : Nat)
    (argv : List String) (hargs : 4 ≤ argv.length)
    (hinit : (w.ksInit (readShape w argv).image.lowerBound
      (readShape w argv).image.upperBound true).2 = true)
    (e : Failure)
    (hbel : w.findABel (w.ksInit (readShape w argv).image.lowerBound
        (readShape w argv).image.upperBound true).1
      (readShape w argv).set3dPredicate 100000 = .error e) :
    main w fuel argv =
      { events := [.importVol (readShape w argv).inputFilename,
          .ksInit (readShape w argv).image.lowerBound (readShape w argv).image.upperBound true,
          .findABel 100000]
        outcome := .failed e } := by
  rw [main_of_init_true w fuel argv hargs hinit]
  simp [trackAndDisplay, hbel]

/-- Claim C4. When `ks.init( lowerBound, upperBound, true )` returns false, `main` returns
status 2, which is not the status 1 it returns on a usage error; the run consists of the import
of the file, the call of `init` and the error message, so that it holds no seed
search, no construction of a surface or of a visitor, no displayed cell and no count. -/
theorem main_init_failure_returns_two [DecidableEq S] (w : Collaborators K S C) (fuel : Nat)
    (argv : List String) (hargs : 4 ≤ argv.length)
    (hinit : (w.ksInit (readShape w argv).image.lowerBound
      (readShape w argv).image.upperBound true).2 = false) :
    (main w fuel argv).outcome = .returned 2 ∧
      (∀ short : List String, short.length < 4 →
        (main w fuel short).outcome = .returned 1 ∧
        (main w fuel short).outcome ≠ (main w fuel argv).outcome) ∧
      (main w fuel argv).events =
        [.importVol (readShape w argv).inputFilename,
          .ksInit (readShape w argv).image.lowerBound (readShape w argv).image.upperBound true,
          .error "Error in the Khamisky space construction."] ∧
      ∀ e ∈ (main w fuel argv).events, e.isTracking = false := by
  rw [main_of_init_false w fuel argv hargs hinit]
  refine ⟨rfl, ?_, rfl, ?_⟩
  · intro short hshort
    simp [main, hshort]
  · intro e he
    simp only [List.mem_cons, List.mem_singleton, List.not_mem_nil, or_false] at he
    rcases he with rfl | rfl | rfl <;> rfl

/-- Witness of claim C4: a file whose image has its upper bound below its lower bound. -/
theorem main_init_failure_returns_two_witness :
    (main voxelWorld 10 ["vol", "none.vol", "1", "255"]).outcome = .returned 2 ∧
      (∀ short : List String, short.length < 4 →
        (main voxelWorld 10 short).outcome = .returned 1 ∧
        (main voxelWorld 10 short).outcome ≠
          (main voxelWorld 10 ["vol", "none.vol", "1", "255"]).outcome) ∧
      (main voxelWorld 10 ["vol", "none.vol", "1", "255"]).events =
        [.importVol (readShape voxelWorld ["vol", "none.vol", "1", "255"]).inputFilename,
          .ksInit (readShape voxelWorld ["vol", "none.vol", "1", "255"]).image.lowerBound
            (readShape voxelWorld ["vol", "none.vol", "1", "255"]).image.upperBound true,
          .error "Error in the Khamisky space construction."] ∧
      ∀ e ∈ (main voxelWorld 10 ["vol", "none.vol", "1", "255"]).events,
        e.isTracking = false :=
  main_init_failure_returns_two voxelWorld 10 ["vol", "none.vol", "1", "255"]
    (by decide) (by decide)

/-- Claim C5. When `findABel( ks, set3dPredicate, 100000 )` fails with `NotFound`, the
failure leaves `main`: the run ends with that failure, which is none of the statuses
`main` returns, and it stops at the seed search, so that no surface and no visitor is
built and no cell is displayed. -/
theorem main_seed_search_failure_leaves_main [DecidableEq S] (w : Collaborators K S C)
    (fuel : Nat) (argv : List String) (hargs : 4 ≤ argv.length)
    (hinit : (w.ksInit (readShape w argv).image.lowerBound
      (readShape w argv).image.upperBound true).2 = true)
    (hbel : w.findABel (w.ksInit (readShape w argv).image.lowerBound
        (readShape w argv).image.upperBound true).1
      (readShape w argv).set3dPredicate 100000 = .error .notFound) :
    (main w fuel argv).outcome = .failed .notFound ∧
      (∀ status : Int, (main w fuel argv).outcome ≠ .returned status) ∧
      (main w fuel argv).events =
        [.importVol (readShape w argv).inputFilename,
          .ksInit (readShape w argv).image.lowerBound (readShape w argv).image.upperBound true,
          .findABel 100000] ∧
      (∀ adj bel, Event.surface adj bel ∉ (main w fuel argv).events) ∧
      (∀ seed, Event.visitor seed ∉ (main w fuel argv).events) ∧
      (∀ cell, Event.display cell ∉ (main w fuel argv).events) := by
  rw [main_of_findABel_error w fuel argv hargs hinit .notFound hbel]
  refine ⟨rfl, ?_, rfl, ?_, ?_, ?_⟩
  · intro status h
    cases h
  · intro adj bel h
    simp at h
  · intro seed h
    simp at h
  · intro cell h
    simp at h

/-- Witness of claim C5: thresholds that select no voxel of the image. -/
theorem main_seed_search_failure_leaves_main_witness :
    (main voxelWorld 10 ["vol", "voxel.vol", "200", "255"]).outcome = .failed .notFound ∧
      (∀ status : Int,
        (main voxelWorld 10 ["vol", "voxel.vol", "200", "255"]).outcome ≠ .returned status) ∧
      (main voxelWorld 10 ["vol", "voxel.vol", "200", "255"]).events =
        [.importVol (readShape voxelWorld ["vol", "voxel.vol", "200", "255"]).inputFilename,
          .ksInit (readShape voxelWorld ["vol", "voxel.vol", "200", "255"]).image.lowerBound
            (readShape voxelWorld ["vol", "voxel.vol", "200", "255"]).image.upperBound true,
          .findABel 100000] ∧
      (∀ adj bel, Event.surface adj bel ∉
        (main voxelWorld 10 ["vol", "voxel.vol", "200", "255"]).events) ∧
      (∀ seed, Event.visitor seed ∉
        (main voxelWorld 10 ["vol", "voxel.vol", "200", "255"]).events) ∧
      (∀ cell, Event.display cell ∉
        (main voxelWorld 10 ["vol", "voxel.vol", "200", "255"]).events) :=
  main_seed_search_failure_leaves_main voxelWorld 10 ["vol", "voxel.vol", "200", "255"]
    (by decide) (by decide) (by decide)

/-- Claim C9. For every voxel `v` of the image domain, `set3dPredicate` holds at `v`, that
is `v` belongs to the set `set3d` that `main` fills, if and only if
`minThreshold <= I(v) <= maxThreshold`, both bounds included. -/
theorem set3d_membership_iff_thresholds (w : Collaborators K S C) (argv : List String)
    (v : Point) (hv : v ∈ (readShape w argv).image.domain) :
    ((readShape w argv).set3dPredicate v = true ↔ v ∈ (readShape w argv).set3d) ∧
      (v ∈ (readShape w argv).set3d ↔
        ((readShape w argv).minThreshold : Int) ≤ (readShape w argv).image.value v ∧
        (readShape w argv).image.value v ≤ ((readShape w argv).maxThreshold : Int)) := by
  refine ⟨by simp [Shape.set3dPredicate, SetPredicate], ?_⟩
  simp only [readShape, SetFromImage.append, Finset.empty_union, Finset.mem_filter] at hv ⊢
  exact and_iff_right hv

/-- Witness of claim C9: the centre voxel of `voxelImage` with thresholds 1 and 255. -/
theorem set3d_membership_iff_thresholds_witness :
    ((readShape voxelWorld ["vol", "voxel.vol", "1", "255"]).set3dPredicate (1, 1, 1) = true ↔
        (1, 1, 1) ∈ (readShape voxelWorld ["vol", "voxel.vol", "1", "255"]).set3d) ∧
      ((1, 1, 1) ∈ (readShape voxelWorld ["vol", "voxel.vol", "1", "255"]).set3d ↔
        ((readShape voxelWorld ["vol", "voxel.vol", "1", "255"]).minThreshold : Int) ≤
          (readShape voxelWorld ["vol", "voxel.vol", "1", "255"]).image.value (1, 1, 1) ∧
        (readShape voxelWorld ["vol", "voxel.vol", "1", "255"]).image.value (1, 1, 1) ≤
          ((readShape voxelWorld ["vol", "voxel.vol", "1", "255"]).maxThreshold : Int)) :=
  set3d_membership_iff_thresholds voxelWorld ["vol", "voxel.vol", "1", "255"] (1, 1, 1)
    (by decide)

/-- Claim C10, as the code has it. No argument of `main` chooses the adjacency: every
surface that a run builds, whatever the argument list, uses the adjacency
`SurfelAdjacency( true )`, interior for every pair of axes. -/
theorem main_adjacency_always_interior [DecidableEq S] (w : Collaborators K S C)
    (fuel : Nat) (argv : List String) (adj : SurfelAdjacency) (bel : S)
    (h : Event.surface adj bel ∈ (main w fuel argv).events) :
    adj = SurfelAdjacency.uniform true ∧ ∀ i j, adj.interior i j = true := by
  have hadj := main_surface w fuel argv adj bel h
  refine ⟨hadj, ?_⟩
  intro i j
  rw [hadj]
  rfl

/-- Witness of the amended claim C10: a run on the image of a single voxel. -/
theorem main_adjacency_always_interior_witness :
    SurfelAdjacency.uniform true = SurfelAdjacency.uniform true ∧
      ∀ i j, (SurfelAdjacency.uniform true).interior i j = true :=
  main_adjacency_always_interior voxelWorld 10 ["vol", "voxel.vol", "1", "255"]
    (SurfelAdjacency.uniform true) 0 (by decide)

/-- Claim C10 fails as stated: two runs that differ in a fourth argument, a would-be
orientation flag `0` or `1`, both build their surface, and both build it with the
interior adjacency; and no two runs on any two argument lists build surfaces with
different adjacencies. -/
theorem main_orientation_flag_counterexample :
    Event.surface (SurfelAdjacency.uniform true) 0 ∈
        (main voxelWorld 10 ["vol", "voxel.vol", "1", "255", "0"]).events ∧
      Event.surface (SurfelAdjacency.uniform true) 0 ∈
        (main voxelWorld 10 ["vol", "voxel.vol", "1", "255", "1"]).events ∧
      ¬ ∃ (fuel fuel' : Nat) (argv argv' : List String) (adj adj' : SurfelAdjacency)
          (bel bel' : Fin 6),
        Event.surface adj bel ∈ (main voxelWorld fuel argv).events ∧
        Event.surface adj' bel' ∈ (main voxelWorld fuel' argv').events ∧ adj ≠ adj' := by
  refine ⟨by decide, by decide, ?_⟩
  rintro ⟨fuel, fuel', argv, argv', adj, adj', bel, bel', h, h', hne⟩
  apply hne
  rw [main_surface voxelWorld fuel argv adj bel h,
    main_surface voxelWorld fuel' argv' adj' bel' h']

/-! ## `FunctorHolder` -/

section FunctorHolder

variable {F A R : Type}

theorem Memory.read_alloc (m : Memory F) (f : F) :
    (m.alloc f).1.read (m.alloc f).2 = some f := by
  simp [Memory.alloc, Memory.read]

theorem Memory.read_alloc_fresh (m : Memory F) (f : F) : m.read (m.alloc f).2 = none := by
  simp [Memory.alloc, Memory.read]

theorem holdFunctor_lvalue (address : Nat) (m : Memory F) :
    holdFunctor (.lvalue address) m =
      some ({ myFunctor := .referenceWrapper address, NeedDereference := false }, m) := rfl

theorem holdFunctor_rvalue (f : F) (m : Memory F) :
    holdFunctor (.rvalue f) m =
      some ({ myFunctor := .sharedPtr (m.alloc f).2, NeedDereference := true },
        (m.alloc f).1) := rfl

/-- The calls of a holder that stores a reference wrapper and does not dereference. -/
theorem call_referenceWrapper (c : Callable F A R) (ref : Nat) (m : Memory F)
    (args : List A) :
    FunctorHolder.callConst c { myFunctor := .referenceWrapper ref, NeedDereference := false }
        m args = m.call c ref args ∧
      FunctorHolder.callMutable c
          { myFunctor := .referenceWrapper ref, NeedDereference := false } m args =
        (m.call c ref args).map (fun rm =>
          (rm.1, rm.2, { myFunctor := .referenceWrapper ref, NeedDereference := false })) := by
  constructor
  · simp [FunctorHolder.callConst, Invoker.apply, FunctorStorage.invoke, Option.map_map,
      Function.comp_def]
  · simp [FunctorHolder.callMutable, Invoker.apply, FunctorStorage.invoke, Option.map_map,
      Function.comp_def]

/-- The calls of a holder that stores a shared pointer and dereferences. -/
theorem call_sharedPtr (c : Callable F A R) (ptr : Nat) (m : Memory F) (args : List A) :
    FunctorHolder.callConst c { myFunctor := .sharedPtr ptr, NeedDereference := true }
        m args = m.call c ptr args ∧
      FunctorHolder.callMutable c
          { myFunctor := .sharedPtr ptr, NeedDereference := true } m args =
        (m.call c ptr args).map (fun rm =>
          (rm.1, rm.2, { myFunctor := .sharedPtr ptr, NeedDereference := true })) := by
  constructor
  · simp [FunctorHolder.callConst, Invoker.apply, FunctorStorage.derefInvoke, Option.map_map,
      Function.comp_def]
  · simp [FunctorHolder.callMutable, Invoker.apply, FunctorStorage.derefInvoke,
      Option.map_map, Function.comp_def]

/-- The holder that `holdFunctor` returns refers to an object, and each of its calls is
the call of that object. -/
theorem holdFunctor_calls (c : Callable F A R) (fn : Passed F) (m : Memory F) :
    ∃ h m1 address, holdFunctor fn m = some (h, m1) ∧ h.myFunctor.target = some address ∧
      ∀ (m' : Memory F) (args : List A),
        h.callConst c m' args = m'.call c address args ∧
        h.callMutable c m' args = (m'.call c address args).map (fun rm => (rm.1, rm.2, h)) := by
  cases fn with
  | lvalue address =>
    exact ⟨_, _, address, holdFunctor_lvalue address m, rfl,
      fun m' args => call_referenceWrapper c address m' args⟩
  | rvalue f =>
    exact ⟨_, _, (m.alloc f).2, holdFunctor_rvalue f m, rfl,
      fun m' args => call_sharedPtr c (m.alloc f).2 m' args⟩

theorem FunctorHolder.copy_eq (h : FunctorHolder F) (m : Memory F) : h.copy m = (h, m) := by
  obtain ⟨fn, need⟩ := h
  cases fn <;> rfl

/-- Claim C6. A call through the holder that `holdFunctor` returns is the call of the held
object, for every argument list, of any length, in the constant and in the modifiable
context. For an lvalue, stored by reference and called without dereferencing, the call
of the holder in any memory is the call `f(a1, ..., an)` of the caller's object at its
address: the same returned value, the same effect on the object, and no result where
the object does not accept the arguments. For an rvalue `f`, stored behind a shared
pointer and dereferenced, the new object is `f`, and the call of the holder returns
what `f(a1, ..., an)` returns and leaves the held object as that call leaves `f`. -/
theorem holdFunctor_call_transparent (c : Callable F A R) (m : Memory F) (args : List A) :
    (∀ address : Nat, ∃ h, holdFunctor (.lvalue address) m = some (h, m) ∧
      ∀ m' : Memory F,
        h.callConst c m' args = m'.call c address args ∧
        h.callMutable c m' args = (m'.call c address args).map (fun rm => (rm.1, rm.2, h))) ∧
    (∀ f : F, ∃ h m1 ptr, holdFunctor (.rvalue f) m = some (h, m1) ∧
      m1.read ptr = some f ∧
      h.callConst c m1 args = (c.call f args).map (fun rf => (rf.1, m1.write ptr rf.2)) ∧
      h.callMutable c m1 args =
        (c.call f args).map (fun rf => (rf.1, m1.write ptr rf.2, h))) := by
  constructor
  · intro address
    exact ⟨_, holdFunctor_lvalue address m, fun m' => call_referenceWrapper c address m' args⟩
  · intro f
    refine ⟨_, _, (m.alloc f).2, holdFunctor_rvalue f m, Memory.read_alloc m f, ?_, ?_⟩
    · rw [(call_sharedPtr c (m.alloc f).2 (m.alloc f).1 args).1]
      simp only [Memory.call, Memory.read_alloc]
      cases c.call f args <;> rfl
    · rw [(call_sharedPtr c (m.alloc f).2 (m.alloc f).1 args).2]
      simp only [Memory.call, Memory.read_alloc]
      cases c.call f args <;> rfl

/-- Claim C7. `holdFunctor` always returns a holder, and its storage depends on the
passing mode alone: for an lvalue the holder stores a reference wrapper to the caller's
object, does not dereference, and the memory is as before; for an rvalue the holder
stores a shared pointer to an object newly allocated with the value passed, at an
address that held no object before, and dereferences. The storage is never of a third
kind: it is no custom storage, by value or by pointer. -/
theorem holdFunctor_storage_mode (fn : Passed F) (m : Memory F) :
    ∃ h m1, holdFunctor fn m = some (h, m1) ∧
      ReferenceWrapperTrait.apply h.myFunctor = fn.is_lvalue_reference ∧
      SharedPtrTrait.apply h.myFunctor = !fn.is_lvalue_reference ∧
      h.NeedDereference = !fn.is_lvalue_reference ∧
      (∀ obj, h.myFunctor ≠ .custom obj) ∧
      (∀ ptr, h.myFunctor ≠ .customPointer ptr) ∧
      match fn with
      | .lvalue address => h.myFunctor = .referenceWrapper address ∧ m1 = m
      | .rvalue f =>
        h.myFunctor = .sharedPtr m.objects.length ∧ m.read m.objects.length = none ∧
          m1.objects = m.objects ++ [f] ∧ m1.read m.objects.length = some f := by
  cases fn with
  | lvalue address =>
    refine ⟨_, _, holdFunctor_lvalue address m, rfl, rfl, rfl, ?_, ?_, rfl, rfl⟩
    · intro obj h
      cases h
    · intro ptr h
      cases h
  | rvalue f =>
    refine ⟨_, _, holdFunctor_rvalue f m, rfl, rfl, rfl, ?_, ?_, rfl, ?_, rfl, ?_⟩
    · intro obj h
      cases h
    · intro ptr h
      cases h
    · exact Memory.read_alloc_fresh m f
    · exact Memory.read_alloc m f

/-- Claim C8. A copy of a holder returned by `holdFunctor`, for an lvalue as for an
rvalue, does not copy the held callable: the copy allocates nothing, the original and the
copy refer to the object at one and the same address, and in every later memory, whatever
the state of that object then, and for every argument list, a call of either holder is
the call of that object, so that both return the same value and a change of the object
changes the result of both. -/
theorem copy_shares_held_callable (c : Callable F A R) (fn : Passed F) (m : Memory F) :
    ∃ h1 m1 address, holdFunctor fn m = some (h1, m1) ∧
      (h1.copy m1).2 = m1 ∧
      h1.myFunctor.target = some address ∧
      (h1.copy m1).1.myFunctor.target = some address ∧
      ∀ (m' : Memory F) (args : List A),
        h1.callConst c m' args = m'.call c address args ∧
        (h1.copy m1).1.callConst c m' args = m'.call c address args ∧
        h1.callMutable c m' args =
          (m'.call c address args).map (fun rm => (rm.1, rm.2, h1)) ∧
        (h1.copy m1).1.callMutable c m' args =
          (m'.call c address args).map (fun rm => (rm.1, rm.2, (h1.copy m1).1)) := by
  obtain ⟨h1, m1, address, hhold, htarget, hcall⟩ := holdFunctor_calls c fn m
  refine ⟨h1, m1, address, hhold, ?_, htarget, ?_, ?_⟩
  · rw [FunctorHolder.copy_eq]
  · rw [FunctorHolder.copy_eq]
    exact htarget
  · intro m' args
    rw [FunctorHolder.copy_eq]
    exact ⟨(hcall m' args).1, (hcall m' args).1, (hcall m' args).2, (hcall m' args).2⟩

end FunctorHolder

/-- The functor `accumulator` held by reference, in a memory where it lives at address
1 with total 20: the holder and its copy both return 26 for the arguments 1, 2, 3, and
both return 106 once the total of the functor has been set to 100. -/
theorem accumulator_copy_example :
    (holdFunctor (.lvalue 1) (Memory.mk [10, 20])).map (fun hm =>
      ((hm.1.callConst accumulator hm.2 [1, 2, 3]).map Prod.fst,
       ((hm.1.copy hm.2).1.callConst accumulator hm.2 [1, 2, 3]).map Prod.fst,
       (hm.1.callConst accumulator (hm.2.write 1 100) [1, 2, 3]).map Prod.fst,
       ((hm.1.copy hm.2).1.callConst accumulator (hm.2.write 1 100) [1, 2, 3]).map Prod.fst))
      = some (some 26, some 26, some 106, some 106) := by
  decide

/-! ## The precondition of `current()` and the first turn of the loop -/

/-- When the loop condition lets the body run, `current()` has a node to return and the
body succeeds. -/
theorem loopBody_of_not_finished (g : Graph V) (unsigns : V → U) (s : LoopState V U)
    (h : s.visitor.finished = false) :
    ∃ node, s.visitor.current = some node ∧
      loopBody g unsigns s = .ok
        { visitor := s.visitor.expand g
          nodes := s.nodes ++ [node]
          viewer := s.viewer ++ [unsigns node.1]
          nbSurfels := s.nbSurfels + 1 } := by
  cases hq : s.visitor.queue with
  | nil => simp [finished, hq] at h
  | cons nd rest =>
    exact ⟨nd, by simp [current, hq], by simp [loopBody, current, hq]⟩

/-- One turn of the loop on a state whose visitor is not finished. -/
theorem displayLoop_succ_of_not_finished (g : Graph V) (unsigns : V → U) (fuel : Nat)
    (s : LoopState V U) (node : Node V) (h : s.visitor.current = some node) :
    displayLoop g unsigns (fuel + 1) s =
      displayLoop g unsigns fuel
        { visitor := s.visitor.expand g
          nodes := s.nodes ++ [node]
          viewer := s.viewer ++ [unsigns node.1]
          nbSurfels := s.nbSurfels + 1 } := by
  cases hq : s.visitor.queue with
  | nil => simp [current, hq] at h
  | cons nd rest =>
    have hnd : nd = node := by simpa [current, hq] using h
    subst hnd
    simp [displayLoop, finished, loopBody, current, hq]

/-- The only failure of the loop is the exhaustion of the fuel. -/
theorem displayLoop_error (g : Graph V) (unsigns : V → U) (fuel : Nat) (s : LoopState V U)
    (e : Failure) (h : displayLoop g unsigns fuel s = .error e) : e = .outOfFuel := by
  induction fuel generalizing s with
  | zero =>
    simp only [displayLoop] at h
    cases h
    rfl
  | succ fuel ih =>
    cases hfin : s.visitor.finished with
    | true => simp [displayLoop, hfin] at h
    | false =>
      obtain ⟨node, hcur, -⟩ := loopBody_of_not_finished g unsigns s hfin
      rw [displayLoop_succ_of_not_finished g unsigns fuel s node hcur] at h
      exact ih _ h

/-- A run of the loop extends the history of `node`, the cells sent to the viewer and the
count by the same nodes. -/
theorem displayLoop_extends (g : Graph V) (unsigns : V → U) (fuel : Nat)
    (s out : LoopState V U) (h : displayLoop g unsigns fuel s = .ok out) :
    ∃ l : List (Node V), out.nodes = s.nodes ++ l ∧
      out.viewer = s.viewer ++ l.map (fun n => unsigns n.1) ∧
      out.nbSurfels = s.nbSurfels + l.length := by
  induction fuel generalizing s with
  | zero => simp [displayLoop] at h
  | succ fuel ih =>
    cases hfin : s.visitor.finished with
    | true =>
      have : out = s := by simpa [displayLoop, hfin] using h.symm
      exact ⟨[], by simp [this]⟩
    | false =>
      obtain ⟨node, hcur, -⟩ := loopBody_of_not_finished g unsigns s hfin
      rw [displayLoop_succ_of_not_finished g unsigns fuel s node hcur] at h
      obtain ⟨l, hn, hv, hc⟩ := ih _ h
      refine ⟨node :: l, ?_, ?_, ?_⟩
      · simpa using hn
      · simpa using hv
      · simp only [List.length_cons] at hc ⊢
        omega

/-- A run of the loop from the visitor built on `bel` starts with the node `(bel, 0)`. -/
theorem displayLoop_start (g : Graph V) (unsigns : V → U) (fuel : Nat) (bel : V)
    (out : LoopState V U)
    (h : displayLoop g unsigns fuel (loopStart (construct bel)) = .ok out) :
    out.nodes.head? = some (bel, 0) ∧ out.viewer.head? = some (unsigns bel) ∧
      1 ≤ out.nbSurfels := by
  cases fuel with
  | zero => simp [displayLoop] at h
  | succ fuel =>
    have hcur : (loopStart (U := U) (construct bel)).visitor.current = some (bel, 0) := rfl
    rw [displayLoop_succ_of_not_finished g unsigns fuel _ (bel, 0) hcur] at h
    obtain ⟨l, hn, hv, hc⟩ := displayLoop_extends g unsigns fuel _ out h
    simp only [loopStart, List.nil_append, List.singleton_append, Nat.zero_add] at hn hv hc
    refine ⟨by rw [hn]; rfl, by rw [hv]; rfl, by omega⟩

/-- Claim C11. In the display loop of `main` the precondition of `current()` always
holds. In any state of the loop, either `finished()` is true, and then the body is not
run, or `current()` returns a node and the body, with its calls of `current()` and
`expand()`, succeeds. So no run of the loop, on any graph, from any state and with any
fuel, ends in a precondition violation. -/
theorem displayLoop_precondition_holds (g : Graph V) (unsigns : V → U) (fuel : Nat)
    (s : LoopState V U) :
    ((s.visitor.finished = true ∧ displayLoop g unsigns (fuel + 1) s = .ok s) ∨
      (s.visitor.finished = false ∧ ∃ node s', s.visitor.current = some node ∧
        loopBody g unsigns s = .ok s' ∧
        displayLoop g unsigns (fuel + 1) s = displayLoop g unsigns fuel s')) ∧
      displayLoop g unsigns fuel s ≠ .error .preconditionViolation := by
  constructor
  · cases hfin : s.visitor.finished with
    | true =>
      left
      exact ⟨rfl, by simp [displayLoop, hfin]⟩
    | false =>
      right
      obtain ⟨node, hcur, hbody⟩ := loopBody_of_not_finished g unsigns s hfin
      exact ⟨rfl, node, _, hcur, hbody,
        displayLoop_succ_of_not_finished g unsigns fuel s node hcur⟩
  · intro h
    have := displayLoop_error g unsigns fuel s _ h
    cases this

/-- The run of `main` when the seed search returns the cell `bel`. -/
theorem main_of_findABel_ok [DecidableEq S] (w : Collaborators K S C) (fuel : Nat)
    (argv : List String) (hargs : 4 ≤ argv.length)
    (hinit : (w.ksInit (readShape w argv).image.lowerBound
      (readShape w argv).image.upperBound true).2 = true)
    (bel : S)
    (hbel : w.findABel (w.ksInit (readShape w argv).image.lowerBound
        (readShape w argv).image.upperBound true).1
      (readShape w argv).set3dPredicate 100000 = .ok bel) :
    main w fuel argv =
      match displayLoop
        (Graph.mk (w.neighbors (w.ksInit (readShape w argv).image.lowerBound
            (readShape w argv).image.upperBound true).1
          (readShape w argv).set3dPredicate (SurfelAdjacency.uniform true) bel))
        (w.unsigns (w.ksInit (readShape w argv).image.lowerBound
          (readShape w argv).image.upperBound true).1)
        fuel (loopStart (construct bel)) with
      | .error e =>
        { events := [.importVol (readShape w argv).inputFilename,
            .ksInit (readShape w argv).image.lowerBound
              (readShape w argv).image.upperBound true,
            .findABel 100000, .surface (SurfelAdjacency.uniform true) bel, .visitor bel]
          outcome := .failed e }
      | .ok out =>
        { events := [.importVol (readShape w argv).inputFilename,
            .ksInit (readShape w argv).image.lowerBound
              (readShape w argv).image.upperBound true,
            .findABel 100000, .surface (SurfelAdjacency.uniform true) bel, .visitor bel]
            ++ out.viewer.map .display ++ [.info out.nbSurfels, .exec]
          outcome := .returned w.exec } := by
  rw [main_of_init_true w fuel argv hargs hinit]
  simp only [trackAndDisplay, hbel]
  split <;> rename_i heq <;> simp [heq]

/-- Claim C12. Right after its construction on the cell `bel` that `findABel` returned,
the visitor is not finished and `current()` is the node `(bel, 0)`. So the display loop
of `main`, whatever the graph, runs its body at least once: given `n + 1` evaluations of
its condition, the loop takes a first turn that assigns `(bel, 0)` to `node`, sends
`ks.unsigns( bel )` to the viewer, sets `nbSurfels` to 1 and expands the visitor, and
goes on from there with the `n` evaluations left. A run of the loop can only fail by
running out of fuel. When the component of `bel` is finite and the fuel exceeds its
number of cells, the loop returns and so does `main`: the first node is `(bel, 0)`, the
first cell displayed is `ks.unsigns( bel )`, the final `nbSurfels` is at least 1, and the
events of the run are those of the construction followed by the displayed cells and the
final count. -/
theorem main_first_display_is_seed [DecidableEq S] (w : Collaborators K S C) (fuel : Nat)
    (argv : List String) (hargs : 4 ≤ argv.length)
    (hinit : (w.ksInit (readShape w argv).image.lowerBound
      (readShape w argv).image.upperBound true).2 = true)
    (bel : S)
    (hbel : w.findABel (w.ksInit (readShape w argv).image.lowerBound
        (readShape w argv).image.upperBound true).1
      (readShape w argv).set3dPredicate 100000 = .ok bel) :
    (construct bel).finished = false ∧ (construct bel).current = some (bel, 0) ∧
      (∀ n : Nat,
        displayLoop
            (Graph.mk (w.neighbors (w.ksInit (readShape w argv).image.lowerBound
                (readShape w argv).image.upperBound true).1
              (readShape w argv).set3dPredicate (SurfelAdjacency.uniform true) bel))
            (w.unsigns (w.ksInit (readShape w argv).image.lowerBound
              (readShape w argv).image.upperBound true).1)
            (n + 1) (loopStart (construct bel)) =
          displayLoop
            (Graph.mk (w.neighbors (w.ksInit (readShape w argv).image.lowerBound
                (readShape w argv).image.upperBound true).1
              (readShape w argv).set3dPredicate (SurfelAdjacency.uniform true) bel))
            (w.unsigns (w.ksInit (readShape w argv).image.lowerBound
              (readShape w argv).image.upperBound true).1)
            n
            { visitor := (construct bel).expand
                (Graph.mk (w.neighbors (w.ksInit (readShape w argv).image.lowerBound
                    (readShape w argv).image.upperBound true).1
                  (readShape w argv).set3dPredicate (SurfelAdjacency.uniform true) bel))
              nodes := [(bel, 0)]
              viewer := [w.unsigns (w.ksInit (readShape w argv).image.lowerBound
                (readShape w argv).image.upperBound true).1 bel]
              nbSurfels := 1 }) ∧
      (∀ e : Failure,
        displayLoop
            (Graph.mk (w.neighbors (w.ksInit (readShape w argv).image.lowerBound
                (readShape w argv).image.upperBound true).1
              (readShape w argv).set3dPredicate (SurfelAdjacency.uniform true) bel))
            (w.unsigns (w.ksInit (readShape w argv).image.lowerBound
              (readShape w argv).image.upperBound true).1)
            fuel (loopStart (construct bel)) = .error e →
          e = .outOfFuel) ∧
      (Set.Finite {v | Reachable
          (Graph.mk (w.neighbors (w.ksInit (readShape w argv).image.lowerBound
              (readShape w argv).image.upperBound true).1
            (readShape w argv).set3dPredicate (SurfelAdjacency.uniform true) bel)) bel v} →
        Set.ncard {v | Reachable
          (Graph.mk (w.neighbors (w.ksInit (readShape w argv).image.lowerBound
              (readShape w argv).image.upperBound true).1
            (readShape w argv).set3dPredicate (SurfelAdjacency.uniform true) bel)) bel v}
          < fuel →
        ∃ out,
          displayLoop
            (Graph.mk (w.neighbors (w.ksInit (readShape w argv).image.lowerBound
                (readShape w argv).image.upperBound true).1
              (readShape w argv).set3dPredicate (SurfelAdjacency.uniform true) bel))
            (w.unsigns (w.ksInit (readShape w argv).image.lowerBound
              (readShape w argv).image.upperBound true).1)
            fuel (loopStart (construct bel)) = .ok out ∧
          out.nodes.head? = some (bel, 0) ∧
          out.viewer.head? = some (w.unsigns (w.ksInit (readShape w argv).image.lowerBound
            (readShape w argv).image.upperBound true).1 bel) ∧
          1 ≤ out.nbSurfels ∧
          (main w fuel argv).outcome = .returned w.exec ∧
          (main w fuel argv).events =
            [.importVol (readShape w argv).inputFilename,
              .ksInit (readShape w argv).image.lowerBound
                (readShape w argv).image.upperBound true,
              .findABel 100000, .surface (SurfelAdjacency.uniform true) bel, .visitor bel]
              ++ out.viewer.map .display ++ [.info out.nbSurfels, .exec]) := by
  refine ⟨rfl, rfl, ?_, ?_, ?_⟩
  · intro n
    exact displayLoop_succ_of_not_finished _ _ n _ (bel, 0) rfl
  · intro e he
    exact displayLoop_error _ _ _ _ _ he
  · intro hfin hfuel
    obtain ⟨out, hout, -, -⟩ :=
      displayLoop_ok hfin fuel (loopStart (construct bel))
        (loopInv_start _ (w.unsigns (w.ksInit (readShape w argv).image.lowerBound
          (readShape w argv).image.upperBound true).1) bel)
        (by simpa [loopStart] using hfuel)
    obtain ⟨hn, hv, hc⟩ := displayLoop_start _ _ _ _ _ hout
    refine ⟨out, hout, hn, hv, hc, ?_, ?_⟩
    · rw [main_of_findABel_ok w fuel argv hargs hinit bel hbel, hout]
    · rw [main_of_findABel_ok w fuel argv hargs hinit bel hbel, hout]

/-- Witness of claim C12: the run on the image of a single voxel, with seed 0 and fuel
10 for a surface of six cells; the loop returns, and the first cell displayed is the
seed. -/
theorem main_first_display_is_seed_witness :
    ∃ out,
      displayLoop (Graph.mk voxelSurface.neighbors) (fun s => s) 10
          (loopStart (construct (0 : Fin 6))) = .ok out ∧
        out.nodes.head? = some (0, 0) ∧ out.viewer.head? = some 0 ∧ 1 ≤ out.nbSurfels ∧
        (main voxelWorld 10 ["vol", "voxel.vol", "1", "255"]).outcome = .returned 0 ∧
        (main voxelWorld 10 ["vol", "voxel.vol", "1", "255"]).events =
          [.importVol "voxel.vol", .ksInit (0, 0, 0) (2, 2, 2) true,
            .findABel 100000, .surface (SurfelAdjacency.uniform true) 0, .visitor 0]
            ++ out.viewer.map .display ++ [.info out.nbSurfels, .exec] :=
  (main_first_display_is_seed voxelWorld 10 ["vol", "voxel.vol", "1", "255"]
    (by decide) (by decide) 0 (by decide)).2.2.2.2 (Set.toFinite _)
    (lt_of_le_of_lt (Set.ncard_le_ncard (Set.subset_univ _) (Set.toFinite _))
      (by simp [Set.ncard_univ]))

/-! ## The arguments of `main` -/

/-- With three arguments or more, a run of `main` starts with the import of the file and
the initialisation of the space, and writes no usage text. -/
theorem main_events_of_args [DecidableEq S] (w : Collaborators K S C) (fuel : Nat)
    (argv : List String) (hargs : 4 ≤ argv.length) :
    ∃ rest : List (Event S C),
      (main w fuel argv).events =
        [.importVol (readShape w argv).inputFilename,
          .ksInit (readShape w argv).image.lowerBound
            (readShape w argv).image.upperBound true] ++ rest ∧
      ∀ program, Event.usage program ∉ rest := by
  cases hinit : (w.ksInit (readShape w argv).image.lowerBound
      (readShape w argv).image.upperBound true).2 with
  | false =>
    rw [main_of_init_false w fuel argv hargs hinit]
    exact ⟨[.error "Error in the Khamisky space construction."], rfl, by simp⟩
  | true =>
    cases hbel : w.findABel (w.ksInit (readShape w argv).image.lowerBound
        (readShape w argv).image.upperBound true).1
        (readShape w argv).set3dPredicate 100000 with
    | error e =>
      rw [main_of_findABel_error w fuel argv hargs hinit e hbel]
      exact ⟨[.findABel 100000], rfl, by simp⟩
    | ok bel =>
      rw [main_of_findABel_ok w fuel argv hargs hinit bel hbel]
      split
      · exact ⟨[.findABel 100000, .surface (SurfelAdjacency.uniform true) bel,
          .visitor bel], rfl, by simp⟩
      · rename_i out _
        exact ⟨[.findABel 100000, .surface (SurfelAdjacency.uniform true) bel,
          .visitor bel] ++ out.viewer.map .display ++ [.info out.nbSurfels, .exec],
          by simp, by simp⟩

/-- No point has a value between two thresholds given in the wrong order. -/
theorem SetFromImage.append_empty_of_lt (image : Image) (minVal maxVal : Int)
    (h : maxVal < minVal) : SetFromImage.append ∅ image minVal maxVal = ∅ := by
  simp only [SetFromImage.append, Finset.empty_union]
  apply Finset.filter_eq_empty_iff.mpr
  intro p _ hp
  omega

/-- Claim C13. The order of the two thresholds is not enforced. With three arguments or
more, whatever the two thresholds, `main` builds the set `set3d` and goes on: its run
starts with the import of the file and the initialisation of the space built on the
image domain. When `minThreshold > maxThreshold`, the set `set3d` is empty, so that
`set3dPredicate` holds at no voxel. -/
theorem main_thresholds_order_not_enforced [DecidableEq S] (w : Collaborators K S C)
    (fuel : Nat) (argv : List String) (hargs : 4 ≤ argv.length) :
    (main w fuel argv).events.take 2 =
        [.importVol (readShape w argv).inputFilename,
          .ksInit (readShape w argv).image.lowerBound
            (readShape w argv).image.upperBound true] ∧
      (readShape w argv).set3d =
        SetFromImage.append ∅ (readShape w argv).image (readShape w argv).minThreshold
          (readShape w argv).maxThreshold ∧
      ((readShape w argv).maxThreshold < (readShape w argv).minThreshold →
        (readShape w argv).set3d = ∅ ∧ ∀ v, (readShape w argv).set3dPredicate v = false) := by
  obtain ⟨rest, hev, -⟩ := main_events_of_args w fuel argv hargs
  refine ⟨by rw [hev]; rfl, rfl, ?_⟩
  intro horder
  have hempty : (readShape w argv).set3d = ∅ :=
    SetFromImage.append_empty_of_lt _ _ _ (by exact_mod_cast horder)
  refine ⟨hempty, ?_⟩
  intro v
  simp [Shape.set3dPredicate, SetPredicate, hempty]

/-- Witness of claim C13: the thresholds 255 and 1, in this order, on the image of a
single voxel. -/
theorem main_thresholds_order_not_enforced_witness :
    (main voxelWorld 10 ["vol", "voxel.vol", "255", "1"]).events.take 2 =
        [.importVol "voxel.vol", .ksInit (0, 0, 0) (2, 2, 2) true] ∧
      (readShape voxelWorld ["vol", "voxel.vol", "255", "1"]).set3d = ∅ ∧
      ∀ v, (readShape voxelWorld ["vol", "voxel.vol", "255", "1"]).set3dPredicate v = false :=
  ⟨(main_thresholds_order_not_enforced voxelWorld 10 ["vol", "voxel.vol", "255", "1"]
      (by decide)).1,
    (main_thresholds_order_not_enforced voxelWorld 10 ["vol", "voxel.vol", "255", "1"]
      (by decide)).2.2 (by decide)⟩

/-- Claim C14. With fewer than three arguments (`argc < 4`), `main` writes the usage text
and returns 1, and its run holds nothing else: no file is read, no space is built,
nothing is traversed. With `argc >= 4` no usage text is written, and `argv[ 1 ]`,
`argv[ 2 ]` and `argv[ 3 ]` are read as the file name, `minThreshold` and `maxThreshold`
in that order: the file imported is `argv[ 1 ]`, and the set `set3d` is built with
`argv[ 2 ]` as lower and `argv[ 3 ]` as upper threshold. -/
theorem main_usage_or_arguments [DecidableEq S] (w : Collaborators K S C) (fuel : Nat)
    (argv : List String) :
    (argv.length < 4 →
      main w fuel argv =
        { events := [.usage (argv.getD 0 "")], outcome := .returned 1 }) ∧
    (4 ≤ argv.length →
      (∀ program, Event.usage program ∉ (main w fuel argv).events) ∧
      argv[1]? = some (readShape w argv).inputFilename ∧
      argv[2]?.map (fun a => toUnsignedInt (w.atoi a)) =
        some (readShape w argv).minThreshold ∧
      argv[3]?.map (fun a => toUnsignedInt (w.atoi a)) =
        some (readShape w argv).maxThreshold ∧
      (main w fuel argv).events.head? = some (.importVol (readShape w argv).inputFilename) ∧
      (readShape w argv).image = w.volReader (readShape w argv).inputFilename ∧
      (readShape w argv).set3d =
        SetFromImage.append ∅ (readShape w argv).image (readShape w argv).minThreshold
          (readShape w argv).maxThreshold) := by
  constructor
  · intro h
    simp [main, h]
  · intro hargs
    obtain ⟨rest, hev, hrest⟩ := main_events_of_args w fuel argv hargs
    refine ⟨?_, ?_, ?_, ?_, by rw [hev]; rfl, rfl, rfl⟩
    · intro program hmem
      rw [hev] at hmem
      simp only [List.cons_append, List.nil_append, List.mem_cons] at hmem
      rcases hmem with h | h | h
      · cases h
      · cases h
      · exact hrest program h
    · have h1 : 1 < argv.length := by omega
      simp [readShape, List.getD, List.getElem?_eq_getElem h1]
    · have h2 : 2 < argv.length := by omega
      simp [readShape, List.getD, List.getElem?_eq_getElem h2]
    · have h3 : 3 < argv.length := by omega
      simp [readShape, List.getD, List.getElem?_eq_getElem h3]

/-- Witness of claim C14: a run with two arguments, and a run with three. -/
theorem main_usage_or_arguments_witness :
    main voxelWorld 10 ["vol", "voxel.vol", "1"] =
        { events := [.usage "vol"], outcome := .returned 1 } ∧
      ((∀ program, Event.usage program ∉
          (main voxelWorld 10 ["vol", "voxel.vol", "1", "255"]).events) ∧
        (readShape voxelWorld ["vol", "voxel.vol", "1", "255"]).inputFilename = "voxel.vol" ∧
        (readShape voxelWorld ["vol", "voxel.vol", "1", "255"]).minThreshold = 1 ∧
        (readShape voxelWorld ["vol", "voxel.vol", "1", "255"]).maxThreshold = 255) := by
  have hshort := (main_usage_or_arguments voxelWorld 10 ["vol", "voxel.vol", "1"]).1
    (by decide)
  have hlong := (main_usage_or_arguments voxelWorld 10 ["vol", "voxel.vol", "1", "255"]).2
    (by decide)
  exact ⟨hshort, hlong.1, by decide, by decide, by decide⟩

/-! ## The display and the two call operators of `FunctorHolder` -/

section FunctorHolderDisplay

variable {F A R : Type}

/-- Two strings that agree after the same beginning are equal. -/
theorem string_append_cancel (a b c : String) (h : a ++ b = a ++ c) : b = c := by
  have hdata := congrArg String.data h
  simp only [String.data_append] at hdata
  exact String.ext (List.append_cancel_left hdata)

/-- The text that `selfDisplay` writes, storage by storage. -/
theorem selfDisplay_eq (h : FunctorHolder F) (out : String) :
    h.selfDisplay out = out ++ "[FunctorHolder]" ++
      match h.myFunctor with
      | .sharedPtr _ => " using std::shared_ptr storage (rvalue)"
      | .referenceWrapper _ => " using std::reference_wrapper storage (lvalue)"
      | .custom _ => " using custom storage"
      | .customPointer _ => " using custom storage" := by
  obtain ⟨fn, need⟩ := h
  cases fn <;> rfl

/-- The three texts of `selfDisplay` differ from one another. -/
theorem selfDisplay_texts_distinct :
    " using std::shared_ptr storage (rvalue)" ≠
        " using std::reference_wrapper storage (lvalue)" ∧
      " using std::shared_ptr storage (rvalue)" ≠ " using custom storage" ∧
      " using std::reference_wrapper storage (lvalue)" ≠ " using custom storage" :=
  ⟨by decide, by decide, by decide⟩

/-- Claim C15. The method `selfDisplay` writes `[FunctorHolder]` and then one of three
texts, chosen by the storage alone: the `(rvalue)` text for a shared pointer, the
`(lvalue)` text for a reference wrapper, the custom text for any other storage; the
three texts differ from one another. So the holder that `holdFunctor` returns displays
the `(lvalue)` text if and only if its argument is an lvalue, the `(rvalue)` text if and
only if it is not, and never the custom text. -/
theorem selfDisplay_storage_text (h : FunctorHolder F) (out : String) (fn : Passed F)
    (m : Memory F) :
    (h.selfDisplay out = out ++ "[FunctorHolder]" ++
      match h.myFunctor with
      | .sharedPtr _ => " using std::shared_ptr storage (rvalue)"
      | .referenceWrapper _ => " using std::reference_wrapper storage (lvalue)"
      | .custom _ => " using custom storage"
      | .customPointer _ => " using custom storage") ∧
    (" using std::shared_ptr storage (rvalue)" ≠
        " using std::reference_wrapper storage (lvalue)" ∧
      " using std::shared_ptr storage (rvalue)" ≠ " using custom storage" ∧
      " using std::reference_wrapper storage (lvalue)" ≠ " using custom storage") ∧
    ∃ h0 m1, holdFunctor fn m = some (h0, m1) ∧
      (h0.selfDisplay out =
          out ++ "[FunctorHolder]" ++ " using std::reference_wrapper storage (lvalue)" ↔
        fn.is_lvalue_reference = true) ∧
      (h0.selfDisplay out =
          out ++ "[FunctorHolder]" ++ " using std::shared_ptr storage (rvalue)" ↔
        fn.is_lvalue_reference = false) ∧
      h0.selfDisplay out ≠ out ++ "[FunctorHolder]" ++ " using custom storage" := by
  obtain ⟨hsr, hsc, hrc⟩ := selfDisplay_texts_distinct
  refine ⟨selfDisplay_eq h out, ⟨hsr, hsc, hrc⟩, ?_⟩
  cases fn with
  | lvalue address =>
    refine ⟨_, _, holdFunctor_lvalue address m, ?_, ?_, ?_⟩
    · exact ⟨fun _ => rfl, fun _ => selfDisplay_eq _ out⟩
    · constructor
      · intro hd
        rw [selfDisplay_eq] at hd
        exact absurd (string_append_cancel _ _ _ hd) hsr.symm
      · intro hl
        cases hl
    · intro hd
      rw [selfDisplay_eq] at hd
      exact hrc (string_append_cancel _ _ _ hd)
  | rvalue f =>
    refine ⟨_, _, holdFunctor_rvalue f m, ?_, ?_, ?_⟩
    · constructor
      · intro hd
        rw [selfDisplay_eq] at hd
        exact absurd (string_append_cancel _ _ _ hd) hsr
      · intro hl
        cases hl
    · exact ⟨fun _ => rfl, fun _ => selfDisplay_eq _ out⟩
    · intro hd
      rw [selfDisplay_eq] at hd
      exact hsc (string_append_cancel _ _ _ hd)

/-- For a storage that refers to the callable object, the two call operators of the
holder do the same. -/
theorem callMutable_eq_callConst (c : Callable F A R) (h : FunctorHolder F)
    (hstorage : h.myFunctor.target ≠ none) (m : Memory F) (args : List A) :
    h.callMutable c m args = (h.callConst c m args).map (fun rm => (rm.1, rm.2, h)) := by
  obtain ⟨fn, need⟩ := h
  cases fn with
  | sharedPtr ptr =>
    cases need <;>
      simp [FunctorHolder.callMutable, FunctorHolder.callConst, Invoker.apply,
        FunctorStorage.invoke, FunctorStorage.derefInvoke, Option.map_map, Function.comp_def]
  | referenceWrapper ref =>
    cases need <;>
      simp [FunctorHolder.callMutable, FunctorHolder.callConst, Invoker.apply,
        FunctorStorage.invoke, FunctorStorage.derefInvoke, Option.map_map, Function.comp_def]
  | custom obj =>
    simp [FunctorStorage.target] at hstorage
  | customPointer ptr =>
    cases need <;>
      simp [FunctorHolder.callMutable, FunctorHolder.callConst, Invoker.apply,
        FunctorStorage.invoke, FunctorStorage.derefInvoke, Option.map_map, Function.comp_def]

/-- The calls of a holder that stores a custom pointer and dereferences. -/
theorem call_customPointer (c : Callable F A R) (ptr : Nat) (m : Memory F) (args : List A) :
    FunctorHolder.callConst c { myFunctor := .customPointer ptr, NeedDereference := true }
        m args = m.call c ptr args ∧
      FunctorHolder.callMutable c
          { myFunctor := .customPointer ptr, NeedDereference := true } m args =
        (m.call c ptr args).map (fun rm =>
          (rm.1, rm.2, { myFunctor := .customPointer ptr, NeedDereference := true })) := by
  constructor
  · simp [FunctorHolder.callConst, Invoker.apply, FunctorStorage.derefInvoke, Option.map_map,
      Function.comp_def]
  · simp [FunctorHolder.callMutable, Invoker.apply, FunctorStorage.derefInvoke,
      Option.map_map, Function.comp_def]

/-- The calls of a holder that stores the callable by value and does not dereference: the
constant holder calls the constant callable, the modifiable holder the modifiable one. -/
theorem call_custom (c : Callable F A R) (obj : F) (m : Memory F) (args : List A) :
    FunctorHolder.callConst c { myFunctor := .custom obj, NeedDereference := false }
        m args = (c.callConst obj args).map (fun r => (r, m)) ∧
      FunctorHolder.callMutable c
          { myFunctor := .custom obj, NeedDereference := false } m args =
        (c.call obj args).map (fun rf =>
          (rf.1, m, { myFunctor := .custom rf.2, NeedDereference := false })) := by
  constructor
  · simp [FunctorHolder.callConst, Invoker.apply, FunctorStorage.invoke, Option.map_map,
      Function.comp_def]
  · simp [FunctorHolder.callMutable, Invoker.apply, FunctorStorage.invoke, Option.map_map,
      Function.comp_def]

/-- Claim C16, as the code has it. For a holder whose storage refers to the held callable
rather than containing it, that is a shared pointer, a reference wrapper or a custom
pointer, the `operator()` of a constant holder and the one of a modifiable holder are
equivalent: for every memory and every argument list they return the same value and
leave the same memory, hence the same state of the held callable, and the modifiable one
leaves the holder as it was. Every holder that `holdFunctor` returns has such a storage,
and each of its two operators is the call of the held object with the arguments given;
so is each operator of a holder that dereferences a custom pointer. For a holder that
stores the callable by value, the constness of the holder is passed on to the callable:
the operator of the constant holder is the call of the constant callable, which leaves
memory and holder as they were, and the operator of the modifiable holder is the call of
the modifiable callable, after which the holder stores the callable as that call left
it. -/
theorem call_operators_equivalent (c : Callable F A R) (h : FunctorHolder F)
    (hstorage : h.myFunctor.target ≠ none) (m : Memory F) (args : List A) :
    h.callMutable c m args = (h.callConst c m args).map (fun rm => (rm.1, rm.2, h)) ∧
      (∀ (fn : Passed F) (m0 : Memory F), ∃ h0 m1 address,
        holdFunctor fn m0 = some (h0, m1) ∧
        h0.myFunctor.target = some address ∧
        h0.callConst c m args = m.call c address args ∧
        h0.callMutable c m args =
          (m.call c address args).map (fun rm => (rm.1, rm.2, h0))) ∧
      (∀ ptr : Nat,
        FunctorHolder.callConst c { myFunctor := .customPointer ptr, NeedDereference := true }
            m args = m.call c ptr args ∧
        FunctorHolder.callMutable c
            { myFunctor := .customPointer ptr, NeedDereference := true } m args =
          (m.call c ptr args).map (fun rm =>
            (rm.1, rm.2, { myFunctor := .customPointer ptr, NeedDereference := true }))) ∧
      (∀ obj : F,
        FunctorHolder.callConst c { myFunctor := .custom obj, NeedDereference := false }
            m args = (c.callConst obj args).map (fun r => (r, m)) ∧
        FunctorHolder.callMutable c
            { myFunctor := .custom obj, NeedDereference := false } m args =
          (c.call obj args).map (fun rf =>
            (rf.1, m, { myFunctor := .custom rf.2, NeedDereference := false }))) := by
  refine ⟨callMutable_eq_callConst c h hstorage m args, ?_,
    fun ptr => call_customPointer c ptr m args, fun obj => call_custom c obj m args⟩
  intro fn m0
  cases fn with
  | lvalue address =>
    exact ⟨_, _, address, holdFunctor_lvalue address m0, rfl,
      (call_referenceWrapper c address m args).1, (call_referenceWrapper c address m args).2⟩
  | rvalue f =>
    exact ⟨_, _, (m0.alloc f).2, holdFunctor_rvalue f m0, rfl,
      (call_sharedPtr c (m0.alloc f).2 m args).1, (call_sharedPtr c (m0.alloc f).2 m args).2⟩

/-- Witness of the amended claim C16: the functor `accumulator` with total 20 at address
1, held through a custom pointer that is dereferenced; both operators return 26 and
leave the total at 26. -/
theorem call_operators_equivalent_witness :
    FunctorHolder.callMutable accumulator
        { myFunctor := .customPointer 1, NeedDereference := true }
        (Memory.mk [10, 20]) [1, 2, 3] =
      (FunctorHolder.callConst accumulator
        { myFunctor := .customPointer 1, NeedDereference := true }
        (Memory.mk [10, 20]) [1, 2, 3]).map
        (fun rm => (rm.1, rm.2, { myFunctor := .customPointer 1, NeedDereference := true })) ∧
      FunctorHolder.callConst accumulator
        { myFunctor := .customPointer 1, NeedDereference := true }
        (Memory.mk [10, 20]) [1, 2, 3] = some (26, Memory.mk [10, 26]) :=
  ⟨(call_operators_equivalent accumulator
      { myFunctor := .customPointer 1, NeedDereference := true } (by decide)
      (Memory.mk [10, 20]) [1, 2, 3]).1, by decide⟩

/-- Claim C16 fails as stated, for a holder built on a storage that holds the callable by
value, `FunctorHolder<F, false>`: with the functor `accumulator` of total 5 and the
argument 1, the operator of a constant holder calls the constant functor, which returns 6
and keeps its total, while the operator of a modifiable holder returns 6 and leaves the
held functor with total 6. The constness of the holder is passed on to the callable,
and the functor is not changed identically by both. -/
theorem call_operators_counterexample :
    FunctorHolder.callConst accumulator { myFunctor := .custom 5, NeedDereference := false }
        (Memory.mk []) [1] = some (6, Memory.mk []) ∧
      FunctorHolder.callMutable accumulator
          { myFunctor := .custom 5, NeedDereference := false } (Memory.mk []) [1] =
        some (6, Memory.mk [], { myFunctor := .custom 6, NeedDereference := false }) ∧
      FunctorHolder.callMutable accumulator
          { myFunctor := .custom 5, NeedDereference := false } (Memory.mk []) [1] ≠
        (FunctorHolder.callConst accumulator
          { myFunctor := .custom 5, NeedDereference := false } (Memory.mk []) [1]).map
          (fun rm => (rm.1, rm.2, { myFunctor := .custom 5, NeedDereference := false })) := by
  refine ⟨by decide, by decide, by decide⟩

end FunctorHolderDisplay

end DGtal
